import Mathlib

/-!
# AI-Code-Explainer: trace rendering and value formatting

A shallow embedding of `static/js/app.js` (`formatValue`, `escapeHtml`,
`renderTrace`, `renderExplanation`) together with the fragment of the
JavaScript semantics those functions rely on.

Modelling conventions.

* A payload is a `JVal`: what `resp.json()` delivers, plus `undefined` for an
  absent property.  An integer of magnitude below `10^21` is `num n` and prints as
  its decimal numeral; every other number is `float text`, carrying the numeral
  the language prints for it.  Strings are sequences of Unicode scalar values.
* An object is given by the sequence of its property definitions in the order
  of the payload text (`JVal.obj`).  `ownEntries` computes what
  `Object.entries` enumerates from it: a key defined twice keeps its first
  position and its last value, array-index keys come first in ascending
  numeric order, the remaining keys follow in insertion order.
* A call that throws (the only exception these functions can raise on such
  data is a `TypeError`) returns `none`.  Engine resource limits (call-stack
  depth, memory) are not part of the model.
-/

namespace App

/-- A JavaScript value as it can occur in a decoded JSON payload.  A number is `num n`
when it is an integer of magnitude below `10^21`, and otherwise `float text`, given by
the numeral the language prints for it (such as `3.14` or `1e+21`); such a number is
never zero, and a payload holds no NaN.  Not every `num n` or `float text` denotes a
number of the language (beyond `2^53` only some integers are numbers); statements about
all values of this type cover the ones that do. -/
inductive JVal where
  | undefined : JVal
  | null : JVal
  | bool (b : Bool) : JVal
  | num (n : Int) : JVal
  | float (text : String) : JVal
  | str (s : String) : JVal
  | arr (items : List JVal) : JVal
  | obj (props : List (String × JVal)) : JVal

/-- The property definitions of an object, in payload order. -/
abbrev Props := List (String × JVal)

/-! ## Fragment of the language semantics -/

/-- ToBoolean. -/
def truthy : JVal → Bool
  | .undefined => false
  | .null => false
  | .bool b => b
  | .num n => n != 0
  | .float _ => true
  | .str s => s != ""
  | .arr _ => true
  | .obj _ => true

/-- Number of UTF-16 code units of a string (`s.length`). -/
def utf16Length (s : String) : Nat :=
  s.data.foldl (fun n c => n + (if c.val.toNat < 65536 then 1 else 2)) 0

/-- An array index is the canonical decimal numeral (no leading zero) of an integer
below `2^32 - 1`. -/
def arrayIndex? (k : String) : Option Nat :=
  let cs := k.data
  if !cs.isEmpty && cs.all Char.isDigit && (cs.length == 1 || cs.head? != some '0') then
    let n := cs.foldl (fun n c => 10 * n + (c.toNat - 48)) 0
    if n < 4294967295 then some n else none
  else none

/-- Whether a key is an array index. -/
def isArrayIndex (k : String) : Bool := (arrayIndex? k).isSome

/-- Whether an object has an own property of that name. -/
def hasKey (ps : Props) (k : String) : Bool := ps.any (fun p => p.1 == k)

/-- Value of the own property `k`: the last definition wins; `undefined` when absent. -/
def lookup : Props → String → JVal
  | [], _ => .undefined
  | (k', v) :: rest, k =>
    if hasKey rest k then lookup rest k else if k' == k then v else .undefined

/-- The distinct keys of a definition sequence, each at its first position. -/
def firstKeys : List String → List String
  | [] => []
  | k :: ks => k :: (firstKeys ks).filter (fun k' => k' != k)

/-- The own properties in creation order: distinct keys, last value of each. -/
def ownProps (ps : Props) : Props :=
  (firstKeys (ps.map Prod.fst)).map (fun k => (k, lookup ps k))

/-- Insert an array-index property into a list sorted by ascending index. -/
def insertIndexed (p : String × JVal) : Props → Props
  | [] => [p]
  | q :: qs =>
    if (arrayIndex? p.1).getD 0 ≤ (arrayIndex? q.1).getD 0 then p :: q :: qs
    else q :: insertIndexed p qs

/-- Sort array-index properties by ascending numeric index. -/
def sortIndexed : Props → Props
  | [] => []
  | p :: ps => insertIndexed p (sortIndexed ps)

/-- The enumeration order of `Object.entries` on a plain object: array-index keys
ascending, then the other keys in creation order. -/
def ownEntries (ps : Props) : Props :=
  sortIndexed ((ownProps ps).filter (fun p => isArrayIndex p.1))
    ++ (ownProps ps).filter (fun p => !isArrayIndex p.1)

mutual
/-- ToString (`String(v)`, and what a template literal applies to a substitution).
A plain object prints as `[object Object]` unless an own `toString` property hides
the inherited method, in which case the conversion throws. -/
def toStr : JVal → Option String
  | .undefined => some "undefined"
  | .null => some "null"
  | .bool b => some (if b then "true" else "false")
  | .num n => some (toString n)
  | .float t => some t
  | .str s => some s
  | .arr xs => (joinItems xs).map (fun ss => ",".intercalate ss)
  | .obj ps => if hasKey ps "toString" then none else some "[object Object]"
/-- The element strings `Array.prototype.join` concatenates: empty for `null` and
`undefined`, ToString otherwise. -/
def joinItems : List JVal → Option (List String)
  | [] => some []
  | x :: xs =>
    match (match x with
      | .undefined => some ""
      | .null => some ""
      | y => toStr y), joinItems xs with
    | some s, some ss => some (s :: ss)
    | _, _ => none
end

/-- Strict equality (`===`) of a value with a string constant. -/
def isString (v : JVal) (s : String) : Bool :=
  match v with
  | .str t => t == s
  | _ => false

/-- All results when every element call returned, `none` when one threw. -/
def allOk : List (Option String) → Option (List String)
  | [] => some []
  | none :: _ => none
  | some s :: rest => (allOk rest).map (fun ss => s :: ss)

mutual
/-- Nesting depth of a value: number of array and object levels around its innermost leaf. -/
def JVal.depth : JVal → Nat
  | .arr xs => depthItems xs + 1
  | .obj ps => depthProps ps + 1
  | _ => 0
/-- Largest depth among the elements of an array. -/
def depthItems : List JVal → Nat
  | [] => 0
  | x :: xs => max x.depth (depthItems xs)
/-- Largest depth among the property values of an object. -/
def depthProps : List (String × JVal) → Nat
  | [] => 0
  | p :: ps => max (depthProp p) (depthProps ps)
/-- Depth of the value of one property. -/
def depthProp : String × JVal → Nat
  | (_, v) => v.depth
end

/-- The body of `formatValue(val)` with a bound on the recursion depth; the bound is
an artefact of the embedding, `formatValue` supplies one that is never reached. -/
def formatValueFuel : Nat → JVal → Option String
  | 0, _ => none
  | fuel + 1, val =>
    match val with
    | .undefined => some "None"
    | .null => some "None"
    | .obj ps =>
      if hasKey ps "type" && hasKey ps "value" then
        if isString (lookup ps "type") "str" then
          (toStr (lookup ps "value")).map (fun s => "\"" ++ s ++ "\"")
        else
          match lookup ps "value" with
          | .arr xs =>
            (allOk (xs.map (formatValueFuel fuel))).map (fun ss =>
              if isString (lookup ps "type") "tuple" then "(" ++ ", ".intercalate ss ++ ")"
              else "[" ++ ", ".intercalate ss ++ "]")
          | .obj qs =>
            (allOk ((ownEntries qs).map (fun p =>
              (formatValueFuel fuel p.2).map (fun s => p.1 ++ ": " ++ s)))).map (fun es =>
              "\x7b" ++ ", ".intercalate es ++ "\x7d")
          | v => toStr v
      else toStr (.obj ps)
    | v => toStr v

/-- The function `formatValue(val)` of app.js. -/
def formatValue (val : JVal) : Option String := formatValueFuel (val.depth + 1) val

/-! ## The rendering functions -/

/-- Strict equality (`===`) of a value with a number constant. -/
def isNumber (v : JVal) (n : Int) : Bool :=
  match v with
  | .num m => m == n
  | _ => false

/-- Property read `v.k`; it throws on `undefined` and `null`.  The names the program
reads are fixed identifiers, none of them numeric and, apart from `length`, none of them
a member of a builtin prototype: on a primitive they yield `undefined`. -/
def getProp (v : JVal) (k : String) : Option JVal :=
  match v with
  | .undefined => none
  | .null => none
  | .obj ps => some (lookup ps k)
  | .arr xs =>
    some (if k = "length" then .num xs.length
      else match arrayIndex? k with
        | some i => xs.getD i .undefined
        | none => .undefined)
  | .str s => some (if k = "length" then .num (utf16Length s) else .undefined)
  | _ => some .undefined

/-- The array `[("i", x_i), ("i+1", x_(i+1)), ...]` of index entries. -/
def indexed : Nat → List JVal → Props
  | _, [] => []
  | i, x :: xs => (toString i, x) :: indexed (i + 1) xs

/-- The UTF-16 code units of a string as one-unit strings.  A character outside the
basic plane is two surrogate halves, which have no scalar value of their own; each
half is shown as U+FFFD. -/
def codeUnits : List Char → List JVal
  | [] => []
  | c :: cs =>
    if c.val.toNat < 65536 then .str c.toString :: codeUnits cs
    else .str "\uFFFD" :: .str "\uFFFD" :: codeUnits cs

/-- The array `Object.entries(v || {})`. -/
def entriesOrEmpty : JVal → Props
  | .obj ps => ownEntries ps
  | .arr xs => indexed 0 xs
  | .str s => indexed 0 (codeUnits s.data)
  | _ => []

/-- The array `Object.keys(v || {})`. -/
def keysOrEmpty (v : JVal) : List String := (entriesOrEmpty v).map Prod.fst

/-- The values a `for (const x of v)` loop visits; a value that is not iterable throws. -/
def iterate : JVal → Option (List JVal)
  | .arr xs => some xs
  | .str s => some (s.data.map (fun c => JVal.str c.toString))
  | _ => none

/-- Text-node serialisation of one character by the `innerHTML` getter. -/
def escapeChar (c : Char) : String :=
  if c = '&' then "&amp;"
  else if c = '<' then "&lt;"
  else if c = '>' then "&gt;"
  else if c.val.toNat = 160 then "&nbsp;"
  else c.toString

/-- Serialisation of a text node. -/
def escapeText (s : String) : String := String.join (s.data.map escapeChar)

/-- The function `escapeHtml(text)` of app.js: `textContent` takes `null` and `undefined`
as the empty text and converts everything else with ToString. -/
def escapeHtml (text : JVal) : Option String :=
  match text with
  | .undefined => some ""
  | .null => some ""
  | v => (toStr v).map escapeText

/-- Truthiness of the constant `hasChanges` of a step. -/
def hasChanges (step : JVal) : Option Bool := do
  let changes ← getProp step "changes"
  if truthy changes then
    let c ← getProp changes "created"
    let u ← getProp changes "updated"
    let d ← getProp changes "deleted"
    some (decide ((keysOrEmpty c).length > 0) || decide ((keysOrEmpty u).length > 0)
      || decide ((keysOrEmpty d).length > 0))
  else some false

/-- The line appended for one entry of `created`. -/
def createdLine (p : String × JVal) : Option String := do
  let v ← formatValue p.2
  some ("<div class=\"var-change var-created\">+ " ++ p.1 ++ " = " ++ v ++ "</div>")

/-- The line appended for one entry of `updated`. -/
def updatedLine (p : String × JVal) : Option String := do
  let f ← formatValue (← getProp p.2 "from")
  let t ← formatValue (← getProp p.2 "to")
  some ("<div class=\"var-change var-updated\">~ " ++ p.1 ++ ": " ++ f ++ " → " ++ t ++ "</div>")

/-- The line appended for one entry of `deleted`. -/
def deletedLine (p : String × JVal) : Option String := do
  let v ← formatValue p.2
  some ("<div class=\"var-change var-deleted\">- " ++ p.1 ++ " (was " ++ v ++ ")</div>")

/-- The diff lines of a step, in the order in which the three loops append them. -/
def diffLines (step : JVal) : Option (List String) := do
  let changes ← getProp step "changes"
  if truthy changes then
    let c ← allOk ((entriesOrEmpty (← getProp changes "created")).map createdLine)
    let u ← allOk ((entriesOrEmpty (← getProp changes "updated")).map updatedLine)
    let d ← allOk ((entriesOrEmpty (← getProp changes "deleted")).map deletedLine)
    some (c ++ u ++ d)
  else some []

/-- The variable `cfText` after the `switch (cf.type)`. -/
def controlFlowText (cf : JVal) : Option String := do
  let t ← getProp cf "type"
  if isString t "function_call" then
    let f ← toStr (← getProp cf "function")
    let d ← toStr (← getProp cf "call_depth")
    some ("→ call " ++ f ++ "() [depth: " ++ d ++ "]")
  else if isString t "function_return" then
    let f ← toStr (← getProp cf "function")
    let v ← formatValue (← getProp cf "return_value")
    some ("← return from " ++ f ++ "(): " ++ v)
  else if isString t "conditional" then
    let e ← toStr (← getProp cf "expression")
    some ("? " ++ e)
  else if isString t "loop" then
    let e ← toStr (← getProp cf "expression")
    some ("↻ " ++ e)
  else if isString t "exception" then
    let x ← toStr (← getProp cf "exception_type")
    let m ← toStr (← getProp cf "exception_message")
    some ("✗ " ++ x ++ ": " ++ m)
  else if isString t "return_statement" then
    let e ← toStr (← getProp cf "expression")
    some ("↩ " ++ e)
  else some ""

/-- The control-flow annotation line of a step, if any. -/
def controlFlowLines (step : JVal) : Option (List String) := do
  let cf ← getProp step "control_flow"
  if truthy cf then
    let cfText ← controlFlowText cf
    if cfText != "" then
      let e ← escapeHtml (.str cfText)
      some ["<div class=\"control-flow-info\">" ++ e ++ "</div>"]
    else some []
  else some []

/-- The markup up to and including the source line of a step. -/
def stepHead (step : JVal) : Option String := do
  let hc ← hasChanges step
  let hasControl := truthy (← getProp step "control_flow")
  let classes := "trace-step" ++ (if hc then " has-changes" else "")
    ++ (if hasControl then " has-control-flow" else "")
  let n ← toStr (← getProp step "step")
  let ev ← toStr (← getProp step "event")
  let ln ← toStr (← getProp step "line_number")
  let src ← escapeHtml (← getProp step "source_line")
  some ("<div class=\"" ++ classes ++ "\">" ++ "<div class=\"step-header\">"
    ++ "<span class=\"step-number\">Step " ++ n ++ "</span>"
    ++ "<span class=\"step-event\">" ++ ev ++ "</span>" ++ "</div>"
    ++ "<div class=\"step-source\"><span class=\"line-num\">" ++ ln ++ "</span>" ++ src
    ++ "</div>")

/-- The markup one iteration of the step loop appends to `html`. -/
def renderStep (step : JVal) : Option String := do
  let head ← stepHead step
  let diffs ← diffLines step
  let cf ← controlFlowLines step
  some (head ++ String.join diffs ++ String.join cf ++ "</div>")

/-- The markup assigned to `#trace-status`. -/
def statusHtml (trace : JVal) : Option String := do
  let err ← getProp trace "error"
  if truthy err then
    let t ← toStr (← getProp err "type")
    some ("<span class=\"status-badge error\">" ++ t ++ "</span>")
  else if truthy (← getProp trace "truncated") then
    let n ← toStr (← getProp trace "step_count")
    some ("<span class=\"status-badge truncated\">Truncated (" ++ n ++ " steps)</span>")
  else
    let n ← toStr (← getProp trace "step_count")
    some ("<span class=\"status-badge success\">" ++ n ++ " steps</span>")

/-- The block appended after the steps when `trace.error` is truthy. -/
def errorBlock (err : JVal) : Option String := do
  let t ← escapeHtml (← getProp err "type")
  let m ← escapeHtml (← getProp err "message")
  some ("<div class=\"error-box\">" ++ t ++ ": " ++ m ++ "</div>")

/-- The placeholder shown for a trace without steps and without error. -/
def noStepsPlaceholder : String :=
  "<div style=\"color: var(--text-muted);\">No execution steps captured.</div>"

/-- The value of `html` that renderTrace assigns to `#trace-panel`. -/
def traceHtml (trace : JVal) : Option String := do
  let steps ← getProp trace "steps"
  let blocks ← allOk ((← iterate steps).map renderStep)
  let err ← getProp trace "error"
  let html ← if truthy err then (errorBlock err).map (fun e => String.join blocks ++ e)
    else some (String.join blocks)
  if isNumber (← getProp steps "length") 0 && !truthy err then some noStepsPlaceholder
  else some html

/-- The content of the four elements the two render functions write to. -/
structure View where
  traceStatus : String
  tracePanel : String
  explanationPanel : String
  explanationDepth : String
  deriving DecidableEq

/-- Outcome of a render call: the view it leaves behind and whether it returned
normally (`false`: it threw, and the view holds what had been written until then). -/
structure Run where
  view : View
  returned : Bool
  deriving DecidableEq

/-- The function `renderTrace(trace)` of app.js, run on the view `s`. -/
def renderTrace (trace : JVal) (s : View) : Run :=
  match statusHtml trace with
  | none => ⟨s, false⟩
  | some badge =>
    match traceHtml trace with
    | none => ⟨{ s with traceStatus := badge }, false⟩
    | some html => ⟨{ s with traceStatus := badge, tracePanel := html }, true⟩

/-- Whether a character is white space or a line terminator of the language. -/
def isJsSpace (c : Char) : Bool :=
  let n := c.val.toNat
  n = 9 || n = 10 || n = 11 || n = 12 || n = 13 || n = 32 || n = 160 || n = 5760
    || (8192 ≤ n && n ≤ 8202) || n = 8232 || n = 8233 || n = 8239 || n = 8287
    || n = 12288 || n = 65279

/-- The number a sequence of decimal digits denotes. -/
def digitsValue (ds : List Char) : Nat := ds.foldl (fun n c => 10 * n + (c.toNat - 48)) 0

/-- The exponent part of a decimal numeral: nothing, or `e` or `E`, an optional sign and
at least one digit; `none` when the text is something else. -/
def exponentPart? (cs : List Char) : Option Int :=
  match cs with
  | [] => some 0
  | c :: rest =>
    if c = 'e' || c = 'E' then
      match rest with
      | '-' :: ds =>
        if !ds.isEmpty && ds.all Char.isDigit then some (-(digitsValue ds : Int)) else none
      | '+' :: ds =>
        if !ds.isEmpty && ds.all Char.isDigit then some (digitsValue ds : Int) else none
      | ds => if !ds.isEmpty && ds.all Char.isDigit then some (digitsValue ds : Int) else none
    else none

/-- Whether an unsigned decimal numeral (`Infinity`, or digits with an optional fraction
and exponent, at least one digit before or after the point) denotes a number above zero.
The value `m * 10^x` rounds to the nearest double, which is zero up to and including
`2^(-1075)`. -/
def decimalPositive (cs : List Char) : Bool :=
  if cs = "Infinity".data then true
  else
    let ip := cs.takeWhile Char.isDigit
    let r := cs.dropWhile Char.isDigit
    let fp := match r with
      | '.' :: r' => r'.takeWhile Char.isDigit
      | _ => []
    let rest := match r with
      | '.' :: r' => r'.dropWhile Char.isDigit
      | r' => r'
    if ip.isEmpty && fp.isEmpty then false
    else match exponentPart? rest with
      | none => false
      | some e =>
        let m := digitsValue (ip ++ fp)
        let x : Int := e - (fp.length : Int)
        if 0 ≤ x then decide (0 < m) else decide (10 ^ x.natAbs < m * 2 ^ 1075)

/-- Whether a character is a hexadecimal digit. -/
def isHexDigit (c : Char) : Bool :=
  c.isDigit || ('a' ≤ c && c ≤ 'f') || ('A' ≤ c && c ≤ 'F')

/-- Whether a numeral with a radix prefix (`0x`, `0o`, `0b`, in either case) denotes a
number above zero: its digits are digits of the radix and one of them is not `0`. -/
def radixPositive (cs : List Char) : Bool :=
  match cs with
  | '0' :: p :: ds =>
    !ds.isEmpty && ds.any (fun c => c != '0') &&
      (if p = 'x' || p = 'X' then ds.all isHexDigit
       else if p = 'o' || p = 'O' then ds.all (fun c => '0' ≤ c && c ≤ '7')
       else if p = 'b' || p = 'B' then ds.all (fun c => c = '0' || c = '1')
       else false)
  | _ => false

/-- Whether a string converts to a number above zero (StringToNumber, then `> 0`): white
space around the numeral is skipped, a sign is allowed before a decimal numeral only, and
a text that is no numeral converts to NaN, which is not above zero. -/
def stringPositive (s : String) : Bool :=
  let t := ((s.data.dropWhile isJsSpace).reverse.dropWhile isJsSpace).reverse
  radixPositive t || match t with
    | '+' :: rest => decimalPositive rest
    | '-' :: _ => false
    | other => decimalPositive other

/-- The comparison `v > 0`; converting an object to a primitive can throw.  A number given
by its numeral is above zero unless the numeral carries a minus sign. -/
def gtZero (v : JVal) : Option Bool :=
  match v with
  | .undefined => some false
  | .null => some false
  | .bool b => some b
  | .num n => some (decide (0 < n))
  | .float t => some (t.data.head? != some '-')
  | .str s => some (stringPositive s)
  | .arr xs => (toStr (.arr xs)).map stringPositive
  | .obj ps => if hasKey ps "toString" then none else some false

/-- The markup appended for one item of `step_explanations`. -/
def explanationStep (se : JVal) : Option String := do
  let n ← toStr (← getProp se "step")
  let l ← toStr (← getProp se "line")
  let e ← escapeHtml (← getProp se "explanation")
  some ("<div class=\"explanation-step\">"
    ++ "<div class=\"explanation-step-header\">Step " ++ n ++ " · Line " ++ l ++ "</div>"
    ++ "<div class=\"explanation-text\">" ++ e ++ "</div>" ++ "</div>")

/-- The markup appended for one key concept. -/
def conceptTag (c : JVal) : Option String :=
  (escapeHtml c).map (fun e => "<span class=\"concept-tag\">" ++ e ++ "</span>")

/-- The markup appended for `expl.summary`. -/
def summaryHtml (expl : JVal) : Option String := do
  let summary ← getProp expl "summary"
  if truthy summary then
    let e ← escapeHtml summary
    some ("<div class=\"explanation-summary\">" ++ e ++ "</div>")
  else some ""

/-- The markup appended by the loop over `expl.step_explanations`. -/
def stepExplanationsHtml (expl : JVal) : Option String := do
  let ses ← getProp expl "step_explanations"
  if truthy ses then
    let items ← iterate ses
    let parts ← allOk (items.map explanationStep)
    some (String.join parts)
  else some ""

/-- The value of the condition `expl.key_concepts && expl.key_concepts.length > 0`. -/
def hasKeyConcepts (kc : JVal) : Option Bool :=
  if truthy kc then (getProp kc "length").bind gtZero else some false

/-- The markup appended for `expl.key_concepts`. -/
def keyConceptsHtml (expl : JVal) : Option String := do
  let kc ← getProp expl "key_concepts"
  if ← hasKeyConcepts kc then
    let items ← iterate kc
    let tags ← allOk (items.map conceptTag)
    some ("<div class=\"key-concepts\">" ++ String.join tags ++ "</div>")
  else some ""

/-- The value of `html` that renderExplanation assigns to `#explanation-panel`. -/
def explanationHtml (expl : JVal) : Option String := do
  let a ← summaryHtml expl
  let b ← stepExplanationsHtml expl
  let c ← keyConceptsHtml expl
  some (a ++ b ++ c)

/-- The markup assigned to `#explanation-depth` when an explanation is shown. -/
def depthHtml (expl : JVal) : Option String := do
  let d ← getProp expl "depth"
  let label ← toStr (if truthy d then d else .str "intermediate")
  some ("<span class=\"status-badge success\">" ++ label ++ "</span>")

/-- The placeholder shown when the envelope carries no explanation. -/
def noExplanationPlaceholder : String :=
  "<div style=\"color: var(--text-muted);\">No explanation generated.</div>"

/-- The function `renderExplanation(data)` of app.js, run on the view `s`. -/
def renderExplanation (data : JVal) (s : View) : Run :=
  match getProp data "ai_error" with
  | none => ⟨s, false⟩
  | some aiError =>
    if truthy aiError then
      match escapeHtml aiError with
      | none => ⟨s, false⟩
      | some m =>
        ⟨{ s with explanationPanel := "<div class=\"error-box\">" ++ m ++ "</div>",
                  explanationDepth := "" }, true⟩
    else
      match getProp data "explanation" with
      | none => ⟨s, false⟩
      | some expl =>
        if !truthy expl then
          ⟨{ s with explanationPanel := noExplanationPlaceholder, explanationDepth := "" }, true⟩
        else
          match depthHtml expl with
          | none => ⟨s, false⟩
          | some badge =>
            match explanationHtml expl with
            | none => ⟨{ s with explanationDepth := badge }, false⟩
            | some html => ⟨{ s with explanationDepth := badge, explanationPanel := html }, true⟩

/-! ## Well-formed traced values -/

/-- A scalar payload of a traced value. -/
inductive Scalar where
  | null : Scalar
  | bool (b : Bool) : Scalar
  | num (n : Int) : Scalar
  | float (text : String) : Scalar
  | str (s : String) : Scalar

/-- The payload value of a scalar. -/
def Scalar.toJVal : Scalar → JVal
  | .null => .null
  | .bool b => .bool b
  | .num n => .num n
  | .float t => .float t
  | .str s => .str s

/-- A well-formed traced value tree (spec §3): a tagged scalar, or a list, tuple or dict
of well-formed traced values. -/
inductive TracedValue where
  | scalar (kind : String) (raw : Scalar) : TracedValue
  | list (items : List TracedValue) : TracedValue
  | tuple (items : List TracedValue) : TracedValue
  | dict (entries : List (String × TracedValue)) : TracedValue

/-- The tagged object `{type: t, value: v}`, the shape `formatValue` reads a tag and a
payload from. -/
def tagged (t : String) (v : JVal) : JVal := .obj [("type", .str t), ("value", v)]

mutual
/-- The payload object of a traced value. -/
def TracedValue.toJVal : TracedValue → JVal
  | .scalar k r => tagged k r.toJVal
  | .list xs => tagged "list" (.arr (toJVals xs))
  | .tuple xs => tagged "tuple" (.arr (toJVals xs))
  | .dict es => tagged "dict" (.obj (toProps es))
/-- The payload array of a sequence of traced values. -/
def toJVals : List TracedValue → List JVal
  | [] => []
  | x :: xs => x.toJVal :: toJVals xs
/-- The payload properties of the entries of a dict. -/
def toProps : List (String × TracedValue) → Props
  | [] => []
  | e :: es => toProp e :: toProps es
/-- The payload property of one dict entry. -/
def toProp : String × TracedValue → String × JVal
  | (k, v) => (k, v.toJVal)
end

/-! ## The rendering as the specification words it -/

/-- The value a property read yields, `undefined` standing in where the read throws. -/
def propOf (v : JVal) (k : String) : JVal := (getProp v k).getD .undefined

/-- The entries of a change map in the insertion order of the map (spec §3); an absent
map has none. -/
def insertionEntries : JVal → Props
  | .obj ps => ps
  | _ => []

/-- A change map of the data model whose keys are not array indices: absent, or an object
with distinct keys none of which is the canonical numeral of an array index. -/
def insertionOrdered : JVal → Bool
  | .undefined => true
  | .null => true
  | .obj ps => decide (ps.map Prod.fst).Nodup && (ps.map Prod.fst).all (fun k => !isArrayIndex k)
  | _ => false

/-- The diff lines in the order spec §4.3 fixes: created, then updated, then deleted, each
group in the insertion order of its map. -/
def specDiffLines (changes : JVal) : Option (List String) :=
  allOk ((insertionEntries (propOf changes "created")).map createdLine
    ++ (insertionEntries (propOf changes "updated")).map updatedLine
    ++ (insertionEntries (propOf changes "deleted")).map deletedLine)

/-- Text of the diff line of a created entry (spec §4.3). -/
def createdText (name value : String) : String := "+ " ++ name ++ " = " ++ value

/-- Text of the diff line of an updated entry (spec §4.3). -/
def updatedText (name old new : String) : String := "~ " ++ name ++ ": " ++ old ++ " → " ++ new

/-- Text of the diff line of a deleted entry (spec §4.3). -/
def deletedText (name value : String) : String := "- " ++ name ++ " (was " ++ value ++ ")"

/-- The element that carries a diff line of the given class. -/
def varChange (cls text : String) : String :=
  "<div class=\"var-change " ++ cls ++ "\">" ++ text ++ "</div>"

/-- The status badge element of the given kind and label (spec §4.2). -/
def statusBadge (kind label : String) : String :=
  "<span class=\"status-badge " ++ kind ++ "\">" ++ label ++ "</span>"

/-- A step whose `created` map was filled with the keys "2" and "1", in that order. -/
def numericNamesStep : JVal :=
  .obj [("step", .num 1), ("event", .str "line"), ("line_number", .num 1),
    ("source_line", .str "pass"),
    ("changes", .obj [("created",
      .obj [("2", tagged "int" (.num 0)), ("1", tagged "int" (.num 1))])])]

/-- The step of the concrete scenario of spec §8, its values written as the payload of the
spec spells them: `kind` and `raw`. -/
def scenarioStepKindRaw : JVal :=
  .obj [("step", .num 1), ("event", .str "line"), ("line_number", .num 2),
    ("source_line", .str "a, b = 0, 1"),
    ("changes", .obj [("created",
      .obj [("a", .obj [("kind", .str "int"), ("raw", .num 0)]),
            ("b", .obj [("kind", .str "int"), ("raw", .num 1)])])])]

/-- The same step with its values in the shape `formatValue` reads: `type` and `value`. -/
def scenarioStep : JVal :=
  .obj [("step", .num 1), ("event", .str "line"), ("line_number", .num 2),
    ("source_line", .str "a, b = 0, 1"),
    ("changes", .obj [("created",
      .obj [("a", tagged "int" (.num 0)), ("b", tagged "int" (.num 1))])])]

/-- The error block with text `type: message` (spec §4.4). -/
def errorBox (type message : String) : String :=
  "<div class=\"error-box\">" ++ type ++ ": " ++ message ++ "</div>"

/-- The trace panel as spec §4.4 words it: the renderings of the steps in payload order,
followed, when `error` is present, by one error block. -/
def specPanel (steps : List JVal) (err : JVal) : Option String :=
  (allOk (steps.map renderStep)).bind (fun blocks =>
    if truthy err then
      (escapeHtml (propOf err "type")).bind (fun t =>
        (escapeHtml (propOf err "message")).map (fun m => String.join blocks ++ errorBox t m))
    else some (String.join blocks))

/-- A trace with both `error` present and `truncated = true`. -/
def errorAndTruncatedTrace : JVal :=
  .obj [("steps", .arr []), ("step_count", .num 0), ("truncated", .bool true),
    ("error", .obj [("type", .str "ZeroDivisionError"), ("message", .str "division by zero")])]

/-- The trace `{steps: [], step_count: 0, truncated: false, error: null}`. -/
def emptyTrace : JVal :=
  .obj [("steps", .arr []), ("step_count", .num 0), ("truncated", .bool false), ("error", .null)]

/-- A step numbered 2. -/
def stepTwo : JVal :=
  .obj [("step", .num 2), ("event", .str "line"), ("line_number", .num 5),
    ("source_line", .str "y = 2")]

/-- A step numbered 1. -/
def stepOne : JVal :=
  .obj [("step", .num 1), ("event", .str "line"), ("line_number", .num 4),
    ("source_line", .str "x = 1")]

/-- A trace whose payload lists step 2 before step 1 and carries an error. -/
def outOfOrderProps : Props :=
  [("steps", .arr [stepTwo, stepOne]), ("step_count", .num 2), ("truncated", .bool false),
    ("error", .obj [("type", .str "NameError"), ("message", .str "name z is not defined")])]

/-! ## Payload shapes on which the render functions return -/

/-- The value is `null` or `undefined`. -/
def nullish : JVal → Bool
  | .undefined => true
  | .null => true
  | _ => false

/-- A view with nothing rendered yet. -/
def blankView : View := ⟨"", "", "", ""⟩

/-- A trace whose only step binds `x` to the string `<b>`. -/
def markupTrace : JVal :=
  .obj [("steps", .arr [.obj [("step", .num 1), ("event", .str "line"),
      ("line_number", .num 1), ("source_line", .str "x = '<b>'"),
      ("changes", .obj [("created", .obj [("x", tagged "str" (.str "<b>"))])])]]),
    ("step_count", .num 1), ("truncated", .bool false)]

/-- An error whose type contains markup. -/
def markupError : JVal := .obj [("type", .str "<i>"), ("message", .str "m")]

/-- A trace without a `steps` field. -/
def noStepsFieldTrace : JVal := .obj [("step_count", .num 0), ("truncated", .bool false)]

/-- A trace with one step whose `updated` entry for `x` is null. -/
def nullUpdateTrace : JVal :=
  .obj [("steps", .arr [.obj [("step", .num 1), ("event", .str "line"),
      ("line_number", .num 1), ("source_line", .str "x = 1"),
      ("changes", .obj [("updated", .obj [("x", .null)])])]]),
    ("step_count", .num 1), ("truncated", .bool false)]

/-- A step whose `updated` entry for `x` lacks `from` and `to`. -/
def bareUpdateStep : JVal :=
  .obj [("step", .num 1), ("event", .str "line"), ("line_number", .num 1),
    ("source_line", .str "x = 1"), ("changes", .obj [("updated", .obj [("x", .obj [])])])]

mutual
/-- Whether the string conversion `String(v)` returns: it throws exactly on an object with
an own `toString` property, and on an array that holds such an object at any depth of
nested arrays. -/
def printable : JVal → Bool
  | .arr xs => printableItems xs
  | .obj ps => !hasKey ps "toString"
  | _ => true
/-- Every element of an array has a string conversion. -/
def printableItems : List JVal → Bool
  | [] => true
  | x :: xs => printable x && printableItems xs
end

/-- Whether `formatValue` returns on a value. -/
def formats (v : JVal) : Bool := (formatValue v).isSome

/-- An entry of `updated` that the diff loop can render: it is not null or absent, and
`formatValue` returns on its `from` and on its `to`. -/
def updatedEntryRenders (info : JVal) : Bool :=
  !nullish info && formats (propOf info "from") && formats (propOf info "to")

/-- A change set that the diff loops can render: it is absent (falsy), or `formatValue`
returns on every value of `created` and of `deleted` and every entry of `updated` can be
rendered. -/
def changesRender (changes : JVal) : Bool :=
  !truthy changes ||
    ((entriesOrEmpty (propOf changes "created")).all (fun p => formats p.2)
      && (entriesOrEmpty (propOf changes "updated")).all (fun p => updatedEntryRenders p.2)
      && (entriesOrEmpty (propOf changes "deleted")).all (fun p => formats p.2))

/-- A control-flow event whose annotation can be built: it is absent (falsy), or the
fields that the annotation of its tag embeds have a string conversion (for the return
value of a `function_return` event: `formatValue` returns on it); an event with another
tag embeds nothing. -/
def controlFlowRenders (cf : JVal) : Bool :=
  !truthy cf ||
    (if isString (propOf cf "type") "function_call" then
      printable (propOf cf "function") && printable (propOf cf "call_depth")
    else if isString (propOf cf "type") "function_return" then
      printable (propOf cf "function") && formats (propOf cf "return_value")
    else if isString (propOf cf "type") "conditional" || isString (propOf cf "type") "loop"
        || isString (propOf cf "type") "return_statement" then
      printable (propOf cf "expression")
    else if isString (propOf cf "type") "exception" then
      printable (propOf cf "exception_type") && printable (propOf cf "exception_message")
    else true)

/-- A step that the step loop can render: it is not null or absent, its `step`, `event`,
`line_number` and `source_line` have a string conversion, and its change set and its
control-flow event can be rendered. -/
def stepRenders (x : JVal) : Bool :=
  !nullish x && printable (propOf x "step") && printable (propOf x "event")
    && printable (propOf x "line_number") && printable (propOf x "source_line")
    && changesRender (propOf x "changes") && controlFlowRenders (propOf x "control_flow")

/-- A trace that renderTrace can render: it is not null or absent; `error.type` and
`error.message` have a string conversion when `error` is present (truthy), and
`step_count` has one otherwise; `steps` can be iterated (it is an array, or a string) and
every step can be rendered. -/
def traceRenders (t : JVal) : Bool :=
  !nullish t
    && (if truthy (propOf t "error") then
        printable (propOf (propOf t "error") "type")
          && printable (propOf (propOf t "error") "message")
      else printable (propOf t "step_count"))
    && match iterate (propOf t "steps") with
      | some xs => xs.all stepRenders
      | none => false

/-- An item of `step_explanations` that can be rendered: it is not null or absent and its
`step`, `line` and `explanation` have a string conversion. -/
def explanationStepRenders (se : JVal) : Bool :=
  !nullish se && printable (propOf se "step") && printable (propOf se "line")
    && printable (propOf se "explanation")

/-- A `step_explanations` field that can be rendered: it is absent (falsy), or it can be
iterated (an array, or a string) and every item can be rendered. -/
def stepExplanationsRender (ses : JVal) : Bool :=
  !truthy ses || match iterate ses with
    | some xs => xs.all explanationStepRenders
    | none => false

/-- A `key_concepts` field that can be rendered: it is absent (falsy); or an array whose
items have a string conversion; or an object whose `length` property compares as not
above zero (so that the loop, which would throw on an object, is not entered); or a
string, a number or `true`. -/
def keyConceptsRender (kc : JVal) : Bool :=
  !truthy kc || match kc with
    | .arr xs => xs.all printable
    | .obj ps => gtZero (lookup ps "length") == some false
    | _ => true

/-- An explanation that can be rendered: `depth` and `summary` have a string conversion,
and `step_explanations` and `key_concepts` can be rendered. -/
def explanationRenders (expl : JVal) : Bool :=
  printable (propOf expl "depth") && printable (propOf expl "summary")
    && stepExplanationsRender (propOf expl "step_explanations")
    && keyConceptsRender (propOf expl "key_concepts")

/-- An envelope that renderExplanation can render: it is not null or absent, and either
`ai_error` is present (truthy) and has a string conversion, or `explanation` is absent
(falsy), or the explanation can be rendered. -/
def envelopeRenders (d : JVal) : Bool :=
  !nullish d
    && (if truthy (propOf d "ai_error") then printable (propOf d "ai_error")
      else !truthy (propOf d "explanation") || explanationRenders (propOf d "explanation"))

/-- A step that creates a variable named `toString`. -/
def toStringNameStep : JVal :=
  .obj [("step", .num 1), ("event", .str "line"), ("line_number", .num 1),
    ("source_line", .str "toString = 1"),
    ("changes", .obj [("created", .obj [("toString", tagged "int" (.num 1))])])]

/-- A trace with that step alone, without an `error` and without a `truncated` field. -/
def toStringNameTrace : JVal :=
  .obj [("steps", .arr [toStringNameStep]), ("step_count", .num 1)]

/-- A trace whose only step is an object without any field. -/
def bareStepTrace : JVal := .obj [("steps", .arr [.obj []])]

/-- An envelope whose explanation is an object without any field. -/
def bareExplanationEnvelope : JVal := .obj [("explanation", .obj [])]

/-- An envelope whose `step_explanations` is a number. -/
def numberStepsEnvelope : JVal :=
  .obj [("explanation", .obj [("summary", .str "ok"), ("step_explanations", .num 5)])]

/-- An envelope whose `step_explanations` holds a null item. -/
def nullItemEnvelope : JVal :=
  .obj [("explanation", .obj [("summary", .str "ok"), ("step_explanations", .arr [.null])])]

/-- An envelope whose `key_concepts` is an object with a `length` of 2. -/
def objectConceptsEnvelope : JVal :=
  .obj [("explanation", .obj [("summary", .str "ok"),
    ("key_concepts", .obj [("length", .num 2)])])]

/-- An envelope whose `key_concepts` is an object with the `length` "1.5", a string. -/
def fractionalLengthEnvelope : JVal :=
  .obj [("explanation", .obj [("summary", .str "ok"),
    ("key_concepts", .obj [("length", .str "1.5")])])]

/-! ## Control flow, change sets and explanations as the specification words them -/

/-- Whether a tag is one of the six control-flow tags of spec §3. -/
def recognisedTag (t : JVal) : Bool :=
  isString t "function_call" || isString t "function_return" || isString t "conditional"
    || isString t "loop" || isString t "exception" || isString t "return_statement"

/-- A step whose control-flow event carries a tag outside the six recognised ones. -/
def unknownTagStep : JVal :=
  .obj [("step", .num 3), ("event", .str "line"), ("line_number", .num 7),
    ("source_line", .str "yield x"),
    ("changes", .obj [("created", .obj [("x", tagged "int" (.num 1))])]),
    ("control_flow", .obj [("type", .str "generator_yield"), ("expression", .str "x")])]

/-- The element that carries the control-flow annotation of a step. -/
def controlFlowInfo (text : String) : String :=
  "<div class=\"control-flow-info\">" ++ text ++ "</div>"

/-- A step with the `function_return` event of the scenario of spec §8, the return value
written as the spec spells it: `kind` and `raw`. -/
def fibonacciReturnKindRaw : JVal :=
  .obj [("step", .num 9), ("event", .str "return"), ("line_number", .num 5),
    ("source_line", .str "return a"),
    ("control_flow", .obj [("type", .str "function_return"), ("function", .str "fibonacci"),
      ("return_value", .obj [("kind", .str "int"), ("raw", .num 8)])])]

/-- The `function_return` event of the scenario, the return value in the shape
`formatValue` reads: `type` and `value`. -/
def fibonacciReturnEvent : Props :=
  [("type", .str "function_return"), ("function", .str "fibonacci"),
    ("return_value", tagged "int" (.num 8))]

/-- The properties of a step that carries that event. -/
def fibonacciReturnProps : Props :=
  [("step", .num 9), ("event", .str "return"), ("line_number", .num 5),
    ("source_line", .str "return a"), ("control_flow", .obj fibonacciReturnEvent)]

/-- The step that carries that event. -/
def fibonacciReturnStep : JVal := .obj fibonacciReturnProps

/-- Whether a change map has at least one entry; an absent map has none.  (A value that
is not a map has the entries `Object.keys` gives it: the indices of an array or of a
string.) -/
def hasEntry : JVal → Bool
  | .obj ps => !ps.isEmpty
  | .arr xs => !xs.isEmpty
  | .str s => s != ""
  | _ => false

/-- The flag `hasChanges` of spec §4.3: at least one of `created`, `updated`, `deleted`
has at least one entry; an absent change set has no maps. -/
def specHasChanges (changes : JVal) : Bool :=
  hasEntry (propOf changes "created") || hasEntry (propOf changes "updated")
    || hasEntry (propOf changes "deleted")

/-- The style classes of a rendered step (spec §4.3). -/
def stepClassList (hasChanges hasControlFlow : Bool) : List String :=
  ["trace-step"] ++ (if hasChanges then ["has-changes"] else [])
    ++ (if hasControlFlow then ["has-control-flow"] else [])

/-- A step without a change set. -/
def stepChangesAbsent : JVal :=
  .obj [("step", .num 1), ("event", .str "line"), ("line_number", .num 1),
    ("source_line", .str "pass")]

/-- The same step with a change set that has none of the three maps. -/
def stepMapsAbsent : JVal :=
  .obj [("step", .num 1), ("event", .str "line"), ("line_number", .num 1),
    ("source_line", .str "pass"), ("changes", .obj [])]

/-- The same step with the three maps present and empty. -/
def stepMapsEmpty : JVal :=
  .obj [("step", .num 1), ("event", .str "line"), ("line_number", .num 1),
    ("source_line", .str "pass"),
    ("changes", .obj [("created", .obj []), ("updated", .obj []), ("deleted", .obj [])])]

/-- The error display of the explanation panel, carrying a message. -/
def errorDisplay (message : String) : String :=
  "<div class=\"error-box\">" ++ message ++ "</div>"

/-- An envelope whose `ai_error` is the empty string and which carries an explanation. -/
def emptyAiErrorEnvelope : JVal :=
  .obj [("ai_error", .str ""), ("explanation", .obj [("summary", .str "ok")])]

/-- The scenario of spec §8, `{ai_error: "rate limited"}`, with the other fields of the
envelope filled in as well. -/
def rateLimitedEnvelope : JVal :=
  .obj [("ai_error", .str "rate limited"),
    ("explanation", .obj [("depth", .str "advanced"), ("summary", .str "A loop."),
      ("step_explanations", .arr [.obj [("step", .num 1), ("line", .num 2),
        ("explanation", .str "binds a")]]),
      ("key_concepts", .arr [.str "loops"])])]

/-- A scalar value: neither an array nor an object. -/
def isScalar : JVal → Bool
  | .arr _ => false
  | .obj _ => false
  | _ => true

/-- The text a scalar converts to. -/
def scalarText (v : JVal) : String := (toStr v).getD ""

/-- An optional text field of the data model: absent (or null), or a string. -/
def optionalText : JVal → Bool
  | .undefined => true
  | .null => true
  | .str _ => true
  | _ => false

/-- The text of an optional text field; an absent field has the empty text. -/
def textOf : JVal → String
  | .str s => s
  | _ => ""

/-- The items of an optional sequence; an absent sequence has none. -/
def itemsOf : JVal → List JVal
  | .arr xs => xs
  | _ => []

/-- An optional sequence of the data model whose items satisfy `p`. -/
def optionalSeq (p : JVal → Bool) : JVal → Bool
  | .undefined => true
  | .null => true
  | .arr xs => xs.all p
  | _ => false

/-- An item `{step, line, explanation}` of `step_explanations` (spec §3). -/
def stepExplanationTyped : JVal → Bool
  | .obj ps => isScalar (lookup ps "step") && isScalar (lookup ps "line")
      && optionalText (lookup ps "explanation")
  | _ => false

/-- Whether a value is a string. -/
def isText : JVal → Bool
  | .str _ => true
  | _ => false

/-- An explanation with the field types of spec §3. -/
def explanationTyped (expl : JVal) : Bool :=
  optionalText (propOf expl "depth") && optionalText (propOf expl "summary")
    && optionalSeq stepExplanationTyped (propOf expl "step_explanations")
    && optionalSeq isText (propOf expl "key_concepts")

/-- The label of the depth badge (spec §4.5): `depth`, or "intermediate" by default. -/
def depthLabel (expl : JVal) : String :=
  if textOf (propOf expl "depth") = "" then "intermediate" else textOf (propOf expl "depth")

/-- The summary block (spec §4.5), omitted when the summary is absent or empty. -/
def summaryBlock (expl : JVal) : String :=
  if textOf (propOf expl "summary") = "" then ""
  else "<div class=\"explanation-summary\">" ++ escapeText (textOf (propOf expl "summary"))
    ++ "</div>"

/-- The entry of one step explanation, labelled `Step {step} · Line {line}`. -/
def stepEntry (se : JVal) : String :=
  "<div class=\"explanation-step\">"
    ++ "<div class=\"explanation-step-header\">Step " ++ scalarText (propOf se "step")
    ++ " · Line " ++ scalarText (propOf se "line") ++ "</div>"
    ++ "<div class=\"explanation-text\">" ++ escapeText (textOf (propOf se "explanation"))
    ++ "</div>" ++ "</div>"

/-- The tag of one key concept. -/
def conceptTagOf (c : JVal) : String :=
  "<span class=\"concept-tag\">" ++ escapeText (textOf c) ++ "</span>"

/-- The concept-tag list (spec §4.5), omitted when there is no key concept. -/
def conceptList (expl : JVal) : String :=
  match itemsOf (propOf expl "key_concepts") with
  | [] => ""
  | c :: cs => "<div class=\"key-concepts\">" ++ String.join ((c :: cs).map conceptTagOf)
      ++ "</div>"

/-- The explanation panel in the order of spec §4.5: summary, step entries, concept tags. -/
def specExplanationPanel (expl : JVal) : String :=
  summaryBlock expl ++ String.join ((itemsOf (propOf expl "step_explanations")).map stepEntry)
    ++ conceptList expl

/-- An envelope with a fully populated explanation and no `ai_error`. -/
def fullExplanationProps : Props :=
  [("trace", .obj []), ("explanation", .obj [("depth", .str "advanced"),
      ("summary", .str "Adds a & b."),
      ("step_explanations", .arr [
        .obj [("step", .num 1), ("line", .num 2), ("explanation", .str "binds a")],
        .obj [("step", .num 2), ("line", .num 3), ("explanation", .str "a < b")]]),
      ("key_concepts", .arr [.str "loops", .str "tuples"])])]

/-- A payload that is an array or an object, which `formatValue` renders as a container. -/
def isContainer : JVal → Bool
  | .arr _ => true
  | .obj _ => true
  | _ => false

/-- A view that an earlier render has filled. -/
def staleView : View := ⟨"old badge", "old panel", "", ""⟩

/-- Whether the markup `fragment` occurs in the markup `panel`. -/
def occursIn (fragment panel : String) : Bool := decide (fragment.data <:+: panel.data)

/-- A trace with one step, which binds `x` to a string that reads like the markup of the
"no steps" placeholder. -/
def placeholderValueTrace : JVal :=
  .obj [("steps", .arr [.obj [("step", .num 1), ("event", .str "line"),
      ("line_number", .num 1), ("source_line", .str ("x = '" ++ noStepsPlaceholder ++ "'")),
      ("changes", .obj [("created", .obj [("x", tagged "str" (.str noStepsPlaceholder))])])]]),
    ("step_count", .num 1), ("truncated", .bool false), ("error", .null)]

/-! ## Basic facts about the embedding -/

theorem depth_lookup (ps : Props) (k : String) : (lookup ps k).depth ≤ depthProps ps := by
  induction ps with
  | nil => simp [lookup, JVal.depth]
  | cons p rest ih =>
    obtain ⟨k', v⟩ := p
    simp only [lookup, depthProps, depthProp]
    split
    · omega
    · split
      · omega
      · simp [JVal.depth]

theorem depth_mem {x : JVal} {xs : List JVal} (h : x ∈ xs) : x.depth ≤ depthItems xs := by
  induction xs with
  | nil => cases h
  | cons y ys ih =>
    simp only [depthItems]
    rcases List.mem_cons.mp h with h1 | h1
    · subst h1; omega
    · have := ih h1; omega

theorem mem_insertIndexed {p q : String × JVal} {qs : Props}
    (h : q ∈ insertIndexed p qs) : q = p ∨ q ∈ qs := by
  induction qs with
  | nil => simpa [insertIndexed] using h
  | cons r rs ih =>
    simp only [insertIndexed] at h
    split at h
    · simp only [List.mem_cons] at h ⊢; exact h
    · rcases List.mem_cons.mp h with h1 | h1
      · exact Or.inr (by simp [h1])
      · rcases ih h1 with h2 | h2
        · exact Or.inl h2
        · exact Or.inr (List.mem_cons_of_mem _ h2)

theorem mem_sortIndexed {q : String × JVal} {qs : Props}
    (h : q ∈ sortIndexed qs) : q ∈ qs := by
  induction qs with
  | nil => simp [sortIndexed] at h
  | cons r rs ih =>
    simp only [sortIndexed] at h
    rcases mem_insertIndexed h with h1 | h1
    · simp [h1]
    · exact List.mem_cons_of_mem _ (ih h1)

theorem ownEntries_subset_ownProps {p : String × JVal} {ps : Props}
    (h : p ∈ ownEntries ps) : p ∈ ownProps ps := by
  simp only [ownEntries, List.mem_append] at h
  rcases h with h | h
  · exact (List.mem_filter.mp (mem_sortIndexed h)).1
  · exact (List.mem_filter.mp h).1

theorem ownEntries_value {p : String × JVal} {ps : Props}
    (h : p ∈ ownEntries ps) : p.2 = lookup ps p.1 := by
  have hc := ownEntries_subset_ownProps h
  simp only [ownProps, List.mem_map] at hc
  obtain ⟨k, _, rfl⟩ := hc
  rfl

theorem depth_ownEntries {p : String × JVal} {ps : Props}
    (h : p ∈ ownEntries ps) : p.2.depth ≤ depthProps ps := by
  rw [ownEntries_value h]; exact depth_lookup ps p.1

theorem formatValueFuel_stable (n : Nat) :
    ∀ (m : Nat) (v : JVal), v.depth < n → v.depth < m →
      formatValueFuel n v = formatValueFuel m v := by
  induction n with
  | zero => intro m v h; omega
  | succ n ih =>
    intro m v hn hm
    cases m with
    | zero => omega
    | succ m =>
      cases v with
      | obj ps =>
        simp only [formatValueFuel]
        have hd : (lookup ps "value").depth ≤ depthProps ps := depth_lookup ps "value"
        simp only [JVal.depth] at hn hm
        split
        · split
          · rfl
          · split
            · rename_i xs hv
              rw [hv] at hd
              simp only [JVal.depth] at hd
              have : xs.map (formatValueFuel n) = xs.map (formatValueFuel m) := by
                apply List.map_congr_left
                intro x hx
                have := depth_mem hx
                exact ih m x (by omega) (by omega)
              rw [this]
            · rename_i qs hv
              rw [hv] at hd
              simp only [JVal.depth] at hd
              have : (ownEntries qs).map (fun p => (formatValueFuel n p.2).map (fun s => p.1 ++ ": " ++ s))
                  = (ownEntries qs).map (fun p => (formatValueFuel m p.2).map (fun s => p.1 ++ ": " ++ s)) := by
                apply List.map_congr_left
                intro p hp
                have := depth_ownEntries hp
                rw [ih m p.2 (by omega) (by omega)]
              rw [this]
            · rfl
        · rfl
      | _ => rfl

theorem formatValue_obj (ps : Props) :
    formatValue (.obj ps) =
      if hasKey ps "type" && hasKey ps "value" then
        if isString (lookup ps "type") "str" then
          (toStr (lookup ps "value")).map (fun s => "\"" ++ s ++ "\"")
        else
          match lookup ps "value" with
          | .arr xs =>
            (allOk (xs.map formatValue)).map (fun ss =>
              if isString (lookup ps "type") "tuple" then "(" ++ ", ".intercalate ss ++ ")"
              else "[" ++ ", ".intercalate ss ++ "]")
          | .obj qs =>
            (allOk ((ownEntries qs).map (fun p =>
              (formatValue p.2).map (fun s => p.1 ++ ": " ++ s)))).map (fun es =>
              "\x7b" ++ ", ".intercalate es ++ "\x7d")
          | v => toStr v
      else toStr (.obj ps) := by
  have hd : (lookup ps "value").depth ≤ depthProps ps := depth_lookup ps "value"
  show formatValueFuel ((JVal.obj ps).depth + 1) (.obj ps) = _
  rw [show (JVal.obj ps).depth + 1 = (depthProps ps + 1) + 1 by simp [JVal.depth]]
  rw [formatValueFuel]
  split
  · split
    · rfl
    · generalize lookup ps "value" = w at hd ⊢
      cases w with
      | arr xs =>
        simp only [JVal.depth] at hd
        have : xs.map (formatValueFuel (depthProps ps + 1)) = xs.map formatValue := by
          apply List.map_congr_left
          intro x hx
          have := depth_mem hx
          exact formatValueFuel_stable _ _ x (by omega) (by omega)
        simp only [this]
      | obj qs =>
        simp only [JVal.depth] at hd
        have : (ownEntries qs).map (fun p => (formatValueFuel (depthProps ps + 1) p.2).map (fun s => p.1 ++ ": " ++ s))
            = (ownEntries qs).map (fun p => (formatValue p.2).map (fun s => p.1 ++ ": " ++ s)) := by
          apply List.map_congr_left
          intro p hp
          have := depth_ownEntries hp
          show Option.map _ (formatValueFuel (depthProps ps + 1) p.2) = Option.map _ (formatValueFuel (p.2.depth + 1) p.2)
          rw [formatValueFuel_stable _ (p.2.depth + 1) p.2 (by omega) (by omega)]
        simp only [this]
      | _ => rfl
  · rfl

theorem formatValue_tagged (t : String) (v : JVal) :
    formatValue (tagged t v) =
      if t = "str" then (toStr v).map (fun s => "\"" ++ s ++ "\"")
      else
        match v with
        | .arr xs =>
          (allOk (xs.map formatValue)).map (fun ss =>
            if t = "tuple" then "(" ++ ", ".intercalate ss ++ ")"
            else "[" ++ ", ".intercalate ss ++ "]")
        | .obj qs =>
          (allOk ((ownEntries qs).map (fun p =>
            (formatValue p.2).map (fun s => p.1 ++ ": " ++ s)))).map (fun es =>
            "\x7b" ++ ", ".intercalate es ++ "\x7d")
        | w => toStr w := by
  have h1 : hasKey [("type", JVal.str t), ("value", v)] "type" = true := rfl
  have h2 : hasKey [("type", JVal.str t), ("value", v)] "value" = true := rfl
  have h3 : lookup [("type", JVal.str t), ("value", v)] "type" = .str t := rfl
  have h4 : lookup [("type", JVal.str t), ("value", v)] "value" = v := rfl
  rw [tagged, formatValue_obj, h1, h2, h3, h4]
  simp only [isString, Bool.and_self, if_true, beq_iff_eq]

theorem allOk_eq_some_iff {l : List (Option String)} {ss : List String} :
    allOk l = some ss ↔ l = ss.map some := by
  induction l generalizing ss with
  | nil => cases ss <;> simp [allOk]
  | cons a l ih =>
    cases a with
    | none => cases ss <;> simp [allOk]
    | some s =>
      cases ss with
      | nil => simp [allOk]
      | cons t ts =>
        simp only [allOk, Option.map_eq_some', List.map_cons, List.cons.injEq, Option.some.injEq]
        constructor
        · rintro ⟨a, ha, rfl, rfl⟩
          exact ⟨rfl, ih.mp ha⟩
        · rintro ⟨rfl, h⟩
          exact ⟨ts, ih.mpr h, rfl, rfl⟩

theorem allOk_isSome {α : Type} (l : List α) (f : α → Option String)
    (h : ∀ x ∈ l, ∃ s, f x = some s) : ∃ ss, allOk (l.map f) = some ss := by
  induction l with
  | nil => exact ⟨[], rfl⟩
  | cons a l ih =>
    obtain ⟨s, hs⟩ := h a (List.mem_cons_self _ _)
    obtain ⟨ss, hss⟩ := ih (fun x hx => h x (List.mem_cons_of_mem _ hx))
    exact ⟨s :: ss, by simp [allOk, hs, hss]⟩

theorem toStr_scalar (r : Scalar) : ∃ s, toStr r.toJVal = some s := by
  cases r <;> exact ⟨_, rfl⟩

theorem mem_toJVals {x : JVal} {xs : List TracedValue} (h : x ∈ toJVals xs) :
    ∃ t ∈ xs, x = t.toJVal := by
  induction xs with
  | nil => simp [toJVals] at h
  | cons y ys ih =>
    simp only [toJVals, List.mem_cons] at h
    rcases h with h | h
    · exact ⟨y, List.mem_cons_self _ _, h⟩
    · obtain ⟨t, ht, e⟩ := ih h
      exact ⟨t, List.mem_cons_of_mem _ ht, e⟩

theorem mem_toProps {p : String × JVal} {es : List (String × TracedValue)} (h : p ∈ toProps es) :
    ∃ e ∈ es, p = (e.1, e.2.toJVal) := by
  induction es with
  | nil => simp [toProps] at h
  | cons y ys ih =>
    simp only [toProps, List.mem_cons] at h
    rcases h with h | h
    · exact ⟨y, List.mem_cons_self _ _, by obtain ⟨a, b⟩ := y; rw [h, toProp]⟩
    · obtain ⟨t, ht, e⟩ := ih h
      exact ⟨t, List.mem_cons_of_mem _ ht, e⟩

theorem hasKey_iff {ps : Props} {k : String} : hasKey ps k = true ↔ ∃ v, (k, v) ∈ ps := by
  simp only [hasKey, List.any_eq_true, beq_iff_eq]
  constructor
  · rintro ⟨p, hp, rfl⟩; exact ⟨p.2, hp⟩
  · rintro ⟨v, hv⟩; exact ⟨(k, v), hv, rfl⟩

theorem lookup_mem {ps : Props} {k : String} (h : hasKey ps k = true) : (k, lookup ps k) ∈ ps := by
  induction ps with
  | nil => simp [hasKey] at h
  | cons p rest ih =>
    obtain ⟨k', v⟩ := p
    simp only [lookup]
    split
    · rename_i h1; exact List.mem_cons_of_mem _ (ih h1)
    · rename_i h1
      have : k' = k := by
        simp only [hasKey, List.any_cons, Bool.or_eq_true, beq_iff_eq] at h h1
        rcases h with h | h
        · exact h
        · exact absurd h h1
      subst this
      simp

theorem mem_firstKeys {k : String} {ks : List String} (h : k ∈ firstKeys ks) : k ∈ ks := by
  induction ks generalizing k with
  | nil => simp [firstKeys] at h
  | cons a l ih =>
    simp only [firstKeys, List.mem_cons, List.mem_filter] at h
    rcases h with h | h
    · simp [h]
    · exact List.mem_cons_of_mem _ (ih h.1)

theorem ownEntries_mem {p : String × JVal} {ps : Props} (h : p ∈ ownEntries ps) : p ∈ ps := by
  have hc := ownEntries_subset_ownProps h
  simp only [ownProps, List.mem_map] at hc
  obtain ⟨k, hk, rfl⟩ := hc
  have hk' := mem_firstKeys hk
  simp only [List.mem_map] at hk'
  obtain ⟨q, hq, rfl⟩ := hk'
  exact lookup_mem (hasKey_iff.mpr ⟨q.2, hq⟩)

mutual
theorem formatValue_toJVal_isSome : ∀ t : TracedValue, ∃ s, formatValue t.toJVal = some s
  | .scalar k r => by
    obtain ⟨s, hs⟩ := toStr_scalar r
    rw [TracedValue.toJVal, formatValue_tagged]
    split
    · exact ⟨_, by rw [hs]; rfl⟩
    · cases r <;> exact ⟨_, rfl⟩
  | .list xs => by
    obtain ⟨ss, hss⟩ := allOk_isSome (toJVals xs) formatValue (fun x hx => by
      obtain ⟨t, ht, rfl⟩ := mem_toJVals hx
      exact formatValue_items_isSome xs t ht)
    rw [TracedValue.toJVal, formatValue_tagged]
    simp [hss]
  | .tuple xs => by
    obtain ⟨ss, hss⟩ := allOk_isSome (toJVals xs) formatValue (fun x hx => by
      obtain ⟨t, ht, rfl⟩ := mem_toJVals hx
      exact formatValue_items_isSome xs t ht)
    rw [TracedValue.toJVal, formatValue_tagged]
    simp [hss]
  | .dict es => by
    obtain ⟨ss, hss⟩ := allOk_isSome (ownEntries (toProps es))
      (fun p => (formatValue p.2).map (fun s => p.1 ++ ": " ++ s)) (fun p hp => by
      obtain ⟨e, he, rfl⟩ := mem_toProps (ownEntries_mem hp)
      obtain ⟨s, hs⟩ := formatValue_entries_isSome es e he
      exact ⟨_, by simp only [hs]; rfl⟩)
    rw [TracedValue.toJVal, formatValue_tagged]
    simp [hss]
theorem formatValue_items_isSome : ∀ (xs : List TracedValue) (t : TracedValue), t ∈ xs →
    ∃ s, formatValue t.toJVal = some s
  | [], _, h => by cases h
  | x :: xs, t, h => by
    by_cases e : t = x
    · subst e; exact formatValue_toJVal_isSome t
    · exact formatValue_items_isSome xs t (by simpa [e] using h)
theorem formatValue_entries_isSome : ∀ (es : List (String × TracedValue)) (e : String × TracedValue),
    e ∈ es → ∃ s, formatValue e.2.toJVal = some s
  | [], _, h => by cases h
  | x :: xs, t, h => by
    by_cases e : t = x
    · subst e; exact formatValue_entry_isSome t
    · exact formatValue_entries_isSome xs t (by simpa [e] using h)
theorem formatValue_entry_isSome : ∀ (e : String × TracedValue), ∃ s, formatValue e.2.toJVal = some s
  | (_, v) => formatValue_toJVal_isSome v
end

theorem hasKey_of_lookup {ps : Props} {k : String} (h : lookup ps k ≠ .undefined) :
    hasKey ps k = true := by
  induction ps with
  | nil => simp [lookup] at h
  | cons p rest ih =>
    obtain ⟨k', v⟩ := p
    simp only [lookup] at h
    simp only [hasKey, List.any_cons, Bool.or_eq_true, beq_iff_eq]
    by_cases h1 : hasKey rest k = true
    · exact Or.inr (by simpa [hasKey] using h1)
    · by_cases h2 : k' = k
      · exact Or.inl h2
      · simp [h1, h2] at h

theorem firstKeys_eq_self {ks : List String} (h : ks.Nodup) : firstKeys ks = ks := by
  induction ks with
  | nil => rfl
  | cons k ks ih =>
    rw [List.nodup_cons] at h
    simp only [firstKeys, ih h.2, List.cons.injEq, true_and]
    rw [List.filter_eq_self]
    intro a ha
    have : a ≠ k := fun e => h.1 (e ▸ ha)
    simpa using this

theorem lookup_of_nodup {ps : Props} (h : (ps.map Prod.fst).Nodup) {p : String × JVal}
    (hp : p ∈ ps) : lookup ps p.1 = p.2 := by
  induction ps with
  | nil => cases hp
  | cons q rest ih =>
    obtain ⟨k', v⟩ := q
    simp only [List.map_cons, List.nodup_cons, List.mem_map, not_exists, not_and] at h
    simp only [lookup]
    rcases List.mem_cons.mp hp with e | hm
    · subst e
      have : hasKey rest k' = false := by
        rw [Bool.eq_false_iff]
        intro hk
        obtain ⟨w, hw⟩ := hasKey_iff.mp hk
        exact h.1 (k', w) hw rfl
      simp [this]
    · have : hasKey rest p.1 = true := hasKey_iff.mpr ⟨p.2, hm⟩
      simp only [this, if_true]
      exact ih h.2 hm

theorem ownProps_eq_self {ps : Props} (h : (ps.map Prod.fst).Nodup) : ownProps ps = ps := by
  rw [ownProps, firstKeys_eq_self h, List.map_map]
  conv_rhs => rw [← List.map_id ps]
  apply List.map_congr_left
  intro p hp
  simp only [Function.comp_apply, id_eq]
  rw [lookup_of_nodup h hp]

theorem ownEntries_eq_self {ps : Props} (h : (ps.map Prod.fst).Nodup)
    (hi : ∀ k ∈ ps.map Prod.fst, isArrayIndex k = false) : ownEntries ps = ps := by
  have h1 : ps.filter (fun p => isArrayIndex p.1) = [] := by
    rw [List.filter_eq_nil_iff]
    intro p hp
    simp [hi p.1 (List.mem_map_of_mem _ hp)]
  have h2 : ps.filter (fun p => !isArrayIndex p.1) = ps := by
    rw [List.filter_eq_self]
    intro p hp
    simp [hi p.1 (List.mem_map_of_mem _ hp)]
  rw [ownEntries, ownProps_eq_self h, h1, h2]
  rfl

/-! ## Value formatting -/

/-- C3: a tagged value whose tag is `list` (resp. `tuple`) and whose payload is the array
`es` formats as `[` (resp. `(`), the formats of the elements joined with `", "`, and `]`
(resp. `)`); for well-formed elements the call returns that string; the empty list gives
`[]`, the empty tuple `()`, and a single element is wrapped without a separator. -/
theorem formatValue_sequence (ps : Props) (es : List JVal)
    (hes : lookup ps "value" = .arr es) :
    (lookup ps "type" = .str "list" →
      formatValue (.obj ps)
        = (allOk (es.map formatValue)).map (fun ss => "[" ++ ", ".intercalate ss ++ "]")) ∧
    (lookup ps "type" = .str "tuple" →
      formatValue (.obj ps)
        = (allOk (es.map formatValue)).map (fun ss => "(" ++ ", ".intercalate ss ++ ")")) ∧
    (∀ xs : List TracedValue, ∃ ss, (toJVals xs).map formatValue = ss.map some ∧
      formatValue (TracedValue.list xs).toJVal = some ("[" ++ ", ".intercalate ss ++ "]") ∧
      formatValue (TracedValue.tuple xs).toJVal = some ("(" ++ ", ".intercalate ss ++ ")")) ∧
    formatValue (tagged "list" (.arr [])) = some "[]" ∧
    formatValue (tagged "tuple" (.arr [])) = some "()" ∧
    (∀ e s, formatValue e = some s →
      formatValue (tagged "list" (.arr [e])) = some ("[" ++ s ++ "]") ∧
      formatValue (tagged "tuple" (.arr [e])) = some ("(" ++ s ++ ")")) := by
  have hv : hasKey ps "value" = true := hasKey_of_lookup (by rw [hes]; exact JVal.noConfusion)
  refine ⟨?_, ?_, ?_, by decide, by decide, ?_⟩
  · intro ht
    have hk : hasKey ps "type" = true := hasKey_of_lookup (by rw [ht]; exact JVal.noConfusion)
    rw [formatValue_obj, hk, hv, ht, hes]
    have h1 : isString (JVal.str "list") "str" = false := by decide
    have h2 : isString (JVal.str "list") "tuple" = false := by decide
    simp [h1, h2]
  · intro ht
    have hk : hasKey ps "type" = true := hasKey_of_lookup (by rw [ht]; exact JVal.noConfusion)
    rw [formatValue_obj, hk, hv, ht, hes]
    have h1 : isString (JVal.str "tuple") "str" = false := by decide
    have h2 : isString (JVal.str "tuple") "tuple" = true := by decide
    simp [h1, h2]
  · intro xs
    obtain ⟨ss, hss⟩ := allOk_isSome (toJVals xs) formatValue (fun x hx => by
      obtain ⟨t, _, rfl⟩ := mem_toJVals hx
      exact formatValue_toJVal_isSome t)
    refine ⟨ss, allOk_eq_some_iff.mp hss, ?_, ?_⟩
    · rw [TracedValue.toJVal, formatValue_tagged, if_neg (by decide)]
      simp only [hss, Option.map_some']
      rw [if_neg (by decide)]
    · rw [TracedValue.toJVal, formatValue_tagged, if_neg (by decide)]
      simp [hss]
  · intro e s he
    constructor
    · rw [formatValue_tagged, if_neg (by decide)]
      simp only [List.map, allOk, he, Option.map_some']
      rw [if_neg (by decide)]
      rfl
    · rw [formatValue_tagged, if_neg (by decide)]
      simp only [List.map, allOk, he, Option.map_some', if_true]
      rfl

/-- Witness for C3: the list `[1, "a"]` given with an extra property. -/
theorem formatValue_sequence_witness :
    lookup [("id", .num 7), ("type", .str "list"),
        ("value", .arr [tagged "int" (.num 1), tagged "str" (.str "a")])] "value"
      = .arr [tagged "int" (.num 1), tagged "str" (.str "a")] ∧
    formatValue (.obj [("id", .num 7), ("type", .str "list"),
        ("value", .arr [tagged "int" (.num 1), tagged "str" (.str "a")])])
      = some "[1, \"a\"]" :=
  ⟨rfl, ((formatValue_sequence
    [("id", .num 7), ("type", .str "list"),
      ("value", .arr [tagged "int" (.num 1), tagged "str" (.str "a")])]
    [tagged "int" (.num 1), tagged "str" (.str "a")] rfl).1 rfl).trans (by decide)⟩


/-- C4 as stated fails: the dict whose keys were inserted as "2" then "1" is rendered with
key "1" first, because `Object.entries` enumerates array-index keys in ascending order. -/
theorem formatValue_dict_numeric_keys_reordered :
    formatValue (tagged "dict" (.obj [("2", tagged "int" (.num 1)), ("1", tagged "int" (.num 2))]))
      = some "\x7b1: 2, 2: 1\x7d" ∧
    formatValue (tagged "dict" (.obj [("2", tagged "int" (.num 1)), ("1", tagged "int" (.num 2))]))
      ≠ some "\x7b2: 1, 1: 2\x7d" := by
  constructor <;> decide

/-- C4 (amended): a tagged value whose tag is `dict` and whose payload is the object `qs`
formats as `{`, the entries `key: format(value)` joined with `", "`, and `}`, the entries
taken in the order `Object.entries` enumerates them; when the keys are distinct and none
is an array index that order is the insertion order; the empty dict gives `{}`. -/
theorem formatValue_dict (ps qs : Props)
    (ht : lookup ps "type" = .str "dict") (hv : lookup ps "value" = .obj qs) :
    formatValue (.obj ps)
      = (allOk ((ownEntries qs).map (fun p => (formatValue p.2).map (fun s => p.1 ++ ": " ++ s)))).map
          (fun es => "\x7b" ++ ", ".intercalate es ++ "\x7d") ∧
    ((qs.map Prod.fst).Nodup → (∀ k ∈ qs.map Prod.fst, isArrayIndex k = false) →
      formatValue (.obj ps)
        = (allOk (qs.map (fun p => (formatValue p.2).map (fun s => p.1 ++ ": " ++ s)))).map
            (fun es => "\x7b" ++ ", ".intercalate es ++ "\x7d")) ∧
    formatValue (tagged "dict" (.obj [])) = some "\x7b\x7d" := by
  have hk : hasKey ps "type" = true := hasKey_of_lookup (by rw [ht]; exact JVal.noConfusion)
  have hk2 : hasKey ps "value" = true := hasKey_of_lookup (by rw [hv]; exact JVal.noConfusion)
  have h1 : isString (JVal.str "dict") "str" = false := by decide
  have key : formatValue (.obj ps)
      = (allOk ((ownEntries qs).map (fun p => (formatValue p.2).map (fun s => p.1 ++ ": " ++ s)))).map
          (fun es => "\x7b" ++ ", ".intercalate es ++ "\x7d") := by
    rw [formatValue_obj, hk, hk2, ht, hv]
    simp [h1]
  refine ⟨key, ?_, by decide⟩
  intro hnd hidx
  rw [key, ownEntries_eq_self hnd hidx]

/-- Witness for C4: the dict `{b: 1, a: "x"}` keeps its insertion order. -/
theorem formatValue_dict_witness :
    formatValue (tagged "dict" (.obj [("b", tagged "int" (.num 1)), ("a", tagged "str" (.str "x"))]))
      = some "\x7bb: 1, a: \"x\"\x7d" :=
  ((formatValue_dict [("type", .str "dict"),
      ("value", .obj [("b", tagged "int" (.num 1)), ("a", tagged "str" (.str "x"))])]
    [("b", tagged "int" (.num 1)), ("a", tagged "str" (.str "x"))] rfl rfl).2.1
      (by decide) (by decide)).trans (by decide)

/-- C5: formatValue returns a string on every well-formed traced-value tree, whatever its
nesting depth: the recursion descends into the payload, so every recursion bound above
the depth of the value yields the same string, which is the one `formatValue` returns. -/
theorem formatValue_total (t : TracedValue) :
    ∃ s, formatValue t.toJVal = some s ∧
      ∀ n, t.toJVal.depth < n → formatValueFuel n t.toJVal = some s := by
  obtain ⟨s, hs⟩ := formatValue_toJVal_isSome t
  refine ⟨s, hs, fun n hn => ?_⟩
  rw [← hs]
  exact formatValueFuel_stable n _ _ hn (Nat.lt_succ_self _)

/-! ## Facts about the diff of a step -/

theorem allOk_append (a b : List (Option String)) :
    allOk (a ++ b) = (allOk a).bind (fun x => (allOk b).map (fun y => x ++ y)) := by
  induction a with
  | nil => simp [allOk]
  | cons o a ih =>
    cases o with
    | none => simp [allOk]
    | some s =>
      rw [List.cons_append]
      simp only [allOk]
      rw [ih]
      cases allOk a <;> cases allOk b <;> simp

theorem getProp_of_truthy {v : JVal} (h : truthy v = true) (k : String) :
    getProp v k = some (propOf v k) := by
  cases v <;> simp_all [truthy, getProp, propOf]

theorem propOf_of_falsy {v : JVal} (h : truthy v = false) (k : String) (hk : k ≠ "length") :
    propOf v k = .undefined := by
  cases v <;> simp_all [truthy, getProp, propOf]

theorem diffLines_eq {step ch : JVal} (h : getProp step "changes" = some ch) :
    diffLines step = allOk ((entriesOrEmpty (propOf ch "created")).map createdLine
      ++ (entriesOrEmpty (propOf ch "updated")).map updatedLine
      ++ (entriesOrEmpty (propOf ch "deleted")).map deletedLine) := by
  simp only [diffLines, h, Option.bind_eq_bind, Option.some_bind]
  by_cases ht : truthy ch = true
  · simp only [ht, if_true, getProp_of_truthy ht, Option.some_bind, allOk_append]
    cases allOk (List.map createdLine (entriesOrEmpty (propOf ch "created"))) <;> simp
    cases allOk (List.map updatedLine (entriesOrEmpty (propOf ch "updated"))) <;> simp
    cases allOk (List.map deletedLine (entriesOrEmpty (propOf ch "deleted"))) <;> simp
  · have hf : truthy ch = false := by simpa using ht
    simp [hf, propOf_of_falsy hf, entriesOrEmpty, allOk]

theorem entriesOrEmpty_of_insertionOrdered {v : JVal} (h : insertionOrdered v = true) :
    entriesOrEmpty v = insertionEntries v := by
  cases v <;> simp_all [insertionOrdered, entriesOrEmpty, insertionEntries]
  rename_i ps
  exact ownEntries_eq_self h.1 (by simpa using h.2)

/-! ## Diff lines of a step -/

/-- C1 as stated fails: the map `created` filled with "2" and then "1" yields the line of
"1" before the line of "2". -/
theorem diffLines_numeric_names_reordered :
    diffLines numericNamesStep
      = some [varChange "var-created" (createdText "1" "1"),
              varChange "var-created" (createdText "2" "0")] ∧
    diffLines numericNamesStep ≠ specDiffLines (propOf numericNamesStep "changes") := by
  constructor <;> decide

/-- C1 (amended): for every step whose change maps have no array-index key, the diff lines
are one line per entry of `created`, then of `updated`, then of `deleted`, each group in
the insertion order of its map, and renderTrace emits them, in that order, between the
source line and the control-flow annotation of the step. -/
theorem diffLines_order (sp : Props)
    (hc : insertionOrdered (propOf (lookup sp "changes") "created") = true)
    (hu : insertionOrdered (propOf (lookup sp "changes") "updated") = true)
    (hd : insertionOrdered (propOf (lookup sp "changes") "deleted") = true) :
    diffLines (.obj sp) = specDiffLines (lookup sp "changes") ∧
    renderStep (.obj sp)
      = (stepHead (.obj sp)).bind (fun head =>
          (specDiffLines (lookup sp "changes")).bind (fun lines =>
            (controlFlowLines (.obj sp)).map (fun cf =>
              head ++ String.join lines ++ String.join cf ++ "</div>"))) := by
  have key : diffLines (.obj sp) = specDiffLines (lookup sp "changes") := by
    rw [diffLines_eq (show getProp (.obj sp) "changes" = some (lookup sp "changes") from rfl),
      specDiffLines, entriesOrEmpty_of_insertionOrdered hc,
      entriesOrEmpty_of_insertionOrdered hu, entriesOrEmpty_of_insertionOrdered hd]
  refine ⟨key, ?_⟩
  simp only [renderStep, key, Option.bind_eq_bind]
  cases stepHead (.obj sp) <;> simp
  cases specDiffLines (lookup sp "changes") <;> simp
  cases controlFlowLines (.obj sp) <;> simp

/-- Witness for C1: `created = {b, a}` and `updated = {c}` yield the lines of b, a, c. -/
theorem diffLines_order_witness :
    diffLines (.obj [("changes", .obj [
        ("created", .obj [("b", tagged "int" (.num 1)), ("a", tagged "int" (.num 2))]),
        ("updated", .obj [("c", .obj [("from", tagged "int" (.num 3)),
          ("to", tagged "int" (.num 4))])])])])
      = some [varChange "var-created" (createdText "b" "1"),
              varChange "var-created" (createdText "a" "2"),
              varChange "var-updated" (updatedText "c" "3" "4")] :=
  (diffLines_order [("changes", .obj [
        ("created", .obj [("b", tagged "int" (.num 1)), ("a", tagged "int" (.num 2))]),
        ("updated", .obj [("c", .obj [("from", tagged "int" (.num 3)),
          ("to", tagged "int" (.num 4))])])])]
    (by decide) (by decide) (by decide)).1.trans (by decide)

/-- C2 as stated fails on its concrete scenario: with the values written `{kind, raw}` the
payload is not a tagged value for `formatValue`, and the lines show `[object Object]`. -/
theorem diffLines_scenario_kind_raw :
    diffLines scenarioStepKindRaw
      = some [varChange "var-created" (createdText "a" "[object Object]"),
              varChange "var-created" (createdText "b" "[object Object]")] ∧
    diffLines scenarioStepKindRaw
      ≠ some [varChange "var-created" (createdText "a" "0"),
              varChange "var-created" (createdText "b" "1")] := by
  constructor <;> decide

/-- C2 (amended): the diff line of a created entry is `+ name = F(value)`, of an updated
entry `~ name: F(from) → F(to)`, of a deleted entry `- name (was F(value))`, with F the
function formatValue; the scenario step, its values written `{type: "int", value: 0}` and
`{type: "int", value: 1}`, renders `+ a = 0` then `+ b = 1`. -/
theorem diffLines_text (sp : Props) :
    diffLines (.obj sp)
      = allOk (
        (entriesOrEmpty (propOf (lookup sp "changes") "created")).map (fun p =>
          (formatValue p.2).map (fun v => varChange "var-created" (createdText p.1 v)))
        ++ (entriesOrEmpty (propOf (lookup sp "changes") "updated")).map (fun p =>
          ((getProp p.2 "from").bind formatValue).bind (fun f =>
            ((getProp p.2 "to").bind formatValue).map (fun t =>
              varChange "var-updated" (updatedText p.1 f t))))
        ++ (entriesOrEmpty (propOf (lookup sp "changes") "deleted")).map (fun p =>
          (formatValue p.2).map (fun v => varChange "var-deleted" (deletedText p.1 v)))) ∧
    diffLines scenarioStep
      = some [varChange "var-created" (createdText "a" "0"),
              varChange "var-created" (createdText "b" "1")] := by
  refine ⟨?_, by decide⟩
  rw [diffLines_eq (show getProp (.obj sp) "changes" = some (lookup sp "changes") from rfl)]
  have e1 : createdLine = fun p =>
      (formatValue p.2).map (fun v => varChange "var-created" (createdText p.1 v)) := by
    funext p
    simp only [createdLine, varChange, createdText, Option.bind_eq_bind]
    cases formatValue p.2 <;> simp [String.append_assoc]
    rfl
  have e2 : updatedLine = fun p =>
      ((getProp p.2 "from").bind formatValue).bind (fun f =>
        ((getProp p.2 "to").bind formatValue).map (fun t =>
          varChange "var-updated" (updatedText p.1 f t))) := by
    funext p
    simp only [updatedLine, varChange, updatedText, Option.bind_eq_bind]
    cases getProp p.2 "from" <;> simp
    rename_i a
    cases formatValue a <;> simp
    cases getProp p.2 "to" <;> simp
    rename_i b
    cases formatValue b <;> simp [String.append_assoc]
    rfl
  have e3 : deletedLine = fun p =>
      (formatValue p.2).map (fun v => varChange "var-deleted" (deletedText p.1 v)) := by
    funext p
    simp only [deletedLine, varChange, deletedText, Option.bind_eq_bind]
    cases formatValue p.2 <;> simp [String.append_assoc]
    rfl
  rw [e1, e2, e3]

/-! ## Status badge and trace panel -/

theorem renderTrace_status {t : JVal} {badge : String} (h : statusHtml t = some badge) (s : View) :
    (renderTrace t s).view.traceStatus = badge := by
  simp only [renderTrace, h]
  cases traceHtml t <;> rfl

theorem renderTrace_panel {t : JVal} {s : View} (h : (renderTrace t s).returned = true) :
    traceHtml t = some (renderTrace t s).view.tracePanel := by
  simp only [renderTrace] at h ⊢
  cases h1 : statusHtml t with
  | none => simp [h1] at h
  | some b =>
    cases h2 : traceHtml t with
    | none => simp [h1, h2] at h
    | some html => rfl

theorem getProp_obj (ps : Props) (k : String) : getProp (.obj ps) k = some (lookup ps k) := rfl

theorem statusHtml_obj (tp : Props) :
    statusHtml (.obj tp) =
      if truthy (lookup tp "error") then
        (toStr (propOf (lookup tp "error") "type")).map (statusBadge "error")
      else if truthy (lookup tp "truncated") then
        (toStr (lookup tp "step_count")).map (fun n =>
          statusBadge "truncated" ("Truncated (" ++ n ++ " steps)"))
      else (toStr (lookup tp "step_count")).map (fun n => statusBadge "success" (n ++ " steps")) := by
  simp only [statusHtml, getProp_obj, Option.bind_eq_bind, Option.some_bind]
  split
  · rename_i h
    rw [getProp_of_truthy h]
    simp only [Option.some_bind]
    cases toStr (propOf (lookup tp "error") "type") <;> simp [statusBadge, String.append_assoc]
  · split
    · cases toStr (lookup tp "step_count") <;> simp [statusBadge, String.append_assoc]
      rfl
    · cases toStr (lookup tp "step_count") <;> simp [statusBadge, String.append_assoc]

/-- C6: the status badge follows the priority error > truncated > success: with `error`
present the badge is the error badge labelled with `error.type`, whatever `truncated`
is; otherwise with `truncated` true it is the truncated badge embedding `step_count`;
otherwise the success badge embedding `step_count`; renderTrace writes that badge, and
a trace with both `error` and `truncated = true` gets the error badge. -/
theorem status_priority (tp : Props) (s : View) :
    (truthy (lookup tp "error") = true →
      statusHtml (.obj tp)
        = (toStr (propOf (lookup tp "error") "type")).map (statusBadge "error")) ∧
    (truthy (lookup tp "error") = false → truthy (lookup tp "truncated") = true →
      statusHtml (.obj tp)
        = (toStr (lookup tp "step_count")).map (fun n =>
            statusBadge "truncated" ("Truncated (" ++ n ++ " steps)"))) ∧
    (truthy (lookup tp "error") = false → truthy (lookup tp "truncated") = false →
      statusHtml (.obj tp)
        = (toStr (lookup tp "step_count")).map (fun n => statusBadge "success" (n ++ " steps"))) ∧
    (∀ badge, statusHtml (.obj tp) = some badge →
      (renderTrace (.obj tp) s).view.traceStatus = badge) ∧
    (renderTrace errorAndTruncatedTrace s).view.traceStatus
      = statusBadge "error" "ZeroDivisionError" := by
  refine ⟨?_, ?_, ?_, fun badge h => renderTrace_status h s, renderTrace_status (by decide) s⟩
  · intro h; rw [statusHtml_obj, if_pos h]
  · intro h1 h2; rw [statusHtml_obj, h1, if_pos h2]; simp
  · intro h1 h2; rw [statusHtml_obj, h1, h2]; simp

theorem errorBlock_of_truthy {err : JVal} (h : truthy err = true) :
    errorBlock err = (escapeHtml (propOf err "type")).bind (fun t =>
      (escapeHtml (propOf err "message")).map (fun m => errorBox t m)) := by
  simp only [errorBlock, getProp_of_truthy h, Option.bind_eq_bind, Option.some_bind]
  cases escapeHtml (propOf err "type") <;> simp
  cases escapeHtml (propOf err "message") <;> simp [errorBox]

theorem isNumber_length (xs : List JVal) : isNumber (.num xs.length) 0 = xs.isEmpty := by
  cases xs <;> simp [isNumber]
  omega

theorem traceHtml_arr {tp : Props} {xs : List JVal} (hs : lookup tp "steps" = .arr xs) :
    traceHtml (.obj tp) =
      (allOk (xs.map renderStep)).bind (fun blocks =>
        if truthy (lookup tp "error") then
          (errorBlock (lookup tp "error")).map (fun e => String.join blocks ++ e)
        else if xs.isEmpty then some noStepsPlaceholder
        else some (String.join blocks)) := by
  simp only [traceHtml, getProp_obj, hs, Option.bind_eq_bind, Option.some_bind, iterate]
  cases allOk (xs.map renderStep) with
  | none => rfl
  | some blocks =>
    simp only [Option.some_bind]
    have hl : getProp (.arr xs) "length" = some (.num xs.length) := by simp [getProp]
    by_cases he : truthy (lookup tp "error") = true
    · simp only [he, if_true]
      cases errorBlock (lookup tp "error") with
      | none => rfl
      | some e => simp [hl]
    · have hf : truthy (lookup tp "error") = false := by simpa using he
      simp only [hf, hl, Option.some_bind, Bool.not_false, Bool.and_true, Bool.false_eq_true,
        if_false]
      rw [isNumber_length]

theorem traceHtml_eq_specPanel {tp : Props} {xs : List JVal}
    (hs : lookup tp "steps" = .arr xs)
    (hne : xs ≠ [] ∨ truthy (lookup tp "error") = true) :
    traceHtml (.obj tp) = specPanel xs (lookup tp "error") := by
  rw [traceHtml_arr hs, specPanel]
  congr 1
  funext blocks
  by_cases he : truthy (lookup tp "error") = true
  · simp only [he, if_true, errorBlock_of_truthy he]
    cases escapeHtml (propOf (lookup tp "error") "type") with
    | none => simp
    | some t => simp; rfl
  · have hx : xs.isEmpty = false := by
      cases xs with
      | nil => simp [he] at hne
      | cons _ _ => rfl
    simp [he, hx]

theorem join_cons (b : String) (bs : List String) : String.join (b :: bs) = b ++ String.join bs := by
  have aux : ∀ (l : List String) (acc : String),
      l.foldl (fun r s => r ++ s) acc = acc ++ l.foldl (fun r s => r ++ s) "" := by
    intro l
    induction l with
    | nil => intro acc; simp
    | cons a l ih =>
      intro acc
      simp only [List.foldl_cons]
      rw [ih (acc ++ a), ih ("" ++ a)]
      simp [String.append_assoc]
  simp only [String.join, List.foldl_cons]
  rw [aux bs ("" ++ b)]
  simp

theorem lt_not_mem_escapeChar (c : Char) : '<' ∉ (escapeChar c).data := by
  unfold escapeChar
  split_ifs with h1 h2 h3 h4
  · decide
  · decide
  · decide
  · decide
  · intro hm
    have : '<' = c := by simpa [Char.toString, String.singleton] using hm
    exact h2 this.symm

theorem lt_not_mem_escapeText (s : String) : '<' ∉ (escapeText s).data := by
  have aux : ∀ cs : List Char, '<' ∉ (String.join (cs.map escapeChar)).data := by
    intro cs
    induction cs with
    | nil => simp [String.join]
    | cons c cs ih =>
      rw [List.map_cons, join_cons, String.data_append, List.mem_append]
      rintro (h | h)
      · exact lt_not_mem_escapeChar c h
      · exact ih h
  exact aux s.data

theorem lt_not_mem_escapeHtml {v : JVal} {t : String} (h : escapeHtml v = some t) :
    '<' ∉ t.data := by
  cases v <;> simp only [escapeHtml, Option.map_eq_some', Option.some.injEq] at h <;>
    first
    | (subst h; simp)
    | (obtain ⟨s, _, rfl⟩ := h; exact lt_not_mem_escapeText s)

theorem placeholder_not_in_errorBox {t m : String} (ht : '<' ∉ t.data) (hm : '<' ∉ m.data) :
    occursIn noStepsPlaceholder (errorBox t m) = false := by
  simp only [occursIn, decide_eq_false_iff_not]
  rintro ⟨pre, post, h⟩
  have hL : (errorBox t m).data
      = "<div class=\"error-box\">".data ++ (t.data ++ (": ".data ++ (m.data ++ "</div>".data))) := by
    simp only [errorBox, String.data_append, List.append_assoc]
  rw [hL] at h
  have hc := congrArg (List.count '<') h
  simp only [List.count_append, List.count_eq_zero.mpr ht, List.count_eq_zero.mpr hm] at hc
  have c1 : List.count '<' noStepsPlaceholder.data = 2 := by decide
  have c2 : List.count '<' "<div class=\"error-box\">".data = 1 := by decide
  have c3 : List.count '<' ": ".data = 0 := by decide
  have c4 : List.count '<' "</div>".data = 1 := by decide
  rw [c1, c2, c3, c4] at hc
  have hpre : pre = [] := by
    cases pre with
    | nil => rfl
    | cons a pre' =>
      have ha : a = '<' := by
        have := congrArg List.head? h
        simpa using this
      subst ha
      simp at hc
      omega
  subst hpre
  have h6 := congrArg (List.take 6) h
  simp only [List.nil_append] at h6
  rw [List.take_append_of_le_length (by decide),
    List.take_append_of_le_length (by decide)] at h6
  revert h6
  decide

set_option maxRecDepth 100000 in
/-- C7, evaluated where it fails: a trace with one step, whose created variable `x` holds
a string that reads like the placeholder markup, is rendered into a panel in which the
markup of the "no steps" placeholder occurs, because the diff line embeds the formatted
value without escaping (the source line of the same step, which carries the same text, is
escaped).  The guard itself does what the claim says: with an empty `steps` array the
panel is exactly the placeholder when `error` is absent, and when `error` is present it
is exactly the error block, in which the placeholder does not occur; with at least one
step the panel is the step blocks followed by the error block when `error` is present,
with no placeholder among them. -/
theorem placeholder_markup_in_step_panel :
    (renderTrace placeholderValueTrace blankView).returned = true ∧
    (renderTrace placeholderValueTrace blankView).view.tracePanel
      = "<div class=\"trace-step has-changes\"><div class=\"step-header\">"
        ++ "<span class=\"step-number\">Step 1</span><span class=\"step-event\">line</span>"
        ++ "</div><div class=\"step-source\"><span class=\"line-num\">1</span>"
        ++ "x = '&lt;div style=\"color: var(--text-muted);\"&gt;No execution steps captured."
        ++ "&lt;/div&gt;'</div><div class=\"var-change var-created\">+ x = \""
        ++ noStepsPlaceholder ++ "\"</div></div>" ∧
    occursIn noStepsPlaceholder (renderTrace placeholderValueTrace blankView).view.tracePanel
      = true ∧
    (∀ tp : Props, lookup tp "steps" = .arr [] → truthy (lookup tp "error") = false →
      traceHtml (.obj tp) = some noStepsPlaceholder) ∧
    (∀ tp : Props, lookup tp "steps" = .arr [] → truthy (lookup tp "error") = true →
      traceHtml (.obj tp) = errorBlock (lookup tp "error") ∧
      errorBlock (lookup tp "error")
        = (escapeHtml (propOf (lookup tp "error") "type")).bind (fun t =>
            (escapeHtml (propOf (lookup tp "error") "message")).map (fun m => errorBox t m)) ∧
      ∀ panel, traceHtml (.obj tp) = some panel → occursIn noStepsPlaceholder panel = false) ∧
    (∀ (tp : Props) (x : JVal) (xs : List JVal), lookup tp "steps" = .arr (x :: xs) →
      traceHtml (.obj tp) = specPanel (x :: xs) (lookup tp "error")) ∧
    (∀ (tp : Props) (s : View), (renderTrace (.obj tp) s).returned = true →
      traceHtml (.obj tp) = some (renderTrace (.obj tp) s).view.tracePanel) ∧
    (renderTrace emptyTrace blankView).view.tracePanel = noStepsPlaceholder ∧
    (renderTrace errorAndTruncatedTrace blankView).view.tracePanel
      = errorBox "ZeroDivisionError" "division by zero" := by
  have hp : (renderTrace placeholderValueTrace blankView).view.tracePanel
      = "<div class=\"trace-step has-changes\"><div class=\"step-header\">"
        ++ "<span class=\"step-number\">Step 1</span><span class=\"step-event\">line</span>"
        ++ "</div><div class=\"step-source\"><span class=\"line-num\">1</span>"
        ++ "x = '&lt;div style=\"color: var(--text-muted);\"&gt;No execution steps captured."
        ++ "&lt;/div&gt;'</div><div class=\"var-change var-created\">+ x = \""
        ++ noStepsPlaceholder ++ "\"</div></div>" := by decide
  refine ⟨by decide, hp, ?_, ?_, ?_, ?_, fun tp s h => renderTrace_panel h,
    by decide, by decide⟩
  · rw [hp]
    simp only [occursIn, decide_eq_true_eq, String.data_append]
    exact ⟨_, _, rfl⟩
  · intro tp hs he
    rw [traceHtml_arr hs, he]
    rfl
  · intro tp hs he
    have e : traceHtml (.obj tp) = errorBlock (lookup tp "error") := by
      rw [traceHtml_arr hs, he]
      simp only [List.map_nil, allOk, Option.some_bind, if_true]
      cases errorBlock (lookup tp "error") with
      | none => rfl
      | some b => simp [String.join]
    refine ⟨e, errorBlock_of_truthy he, ?_⟩
    intro panel h
    rw [e, errorBlock_of_truthy he] at h
    simp only [Option.bind_eq_some, Option.map_eq_some'] at h
    obtain ⟨t, ht, m, hm, rfl⟩ := h
    exact placeholder_not_in_errorBox (lt_not_mem_escapeHtml ht) (lt_not_mem_escapeHtml hm)
  · intro tp x xs hs
    exact traceHtml_eq_specPanel hs (Or.inl (List.cons_ne_nil _ _))

/-- C8 as stated fails on the trace without steps and without error: its panel is the
placeholder, not the concatenation of its (zero) step renderings. -/
theorem traceHtml_empty_no_error_not_concatenation :
    traceHtml emptyTrace = some noStepsPlaceholder ∧
    specPanel [] .null = some "" ∧
    traceHtml emptyTrace ≠ specPanel [] .null := by
  refine ⟨by decide, by decide, by decide⟩

/-- C8 (amended): for every trace with at least one step or with `error` present, the
panel is the concatenation of the renderings of its steps in payload order followed,
exactly when `error` is present, by one error block `type: message`. -/
theorem panel_steps_then_error (tp : Props) (xs : List JVal)
    (hs : lookup tp "steps" = .arr xs)
    (hne : xs ≠ [] ∨ truthy (lookup tp "error") = true) :
    traceHtml (.obj tp) = specPanel xs (lookup tp "error") ∧
    (∀ s, (renderTrace (.obj tp) s).returned = true →
      specPanel xs (lookup tp "error") = some (renderTrace (.obj tp) s).view.tracePanel) := by
  have key : traceHtml (.obj tp) = specPanel xs (lookup tp "error") :=
    traceHtml_eq_specPanel hs hne
  exact ⟨key, fun s h => key ▸ renderTrace_panel h⟩

set_option maxRecDepth 100000 in
/-- Witness for C8: steps listed as 2, 1 are rendered as 2, 1, then the error block. -/
theorem panel_steps_then_error_witness :
    traceHtml (.obj outOfOrderProps)
      = (renderStep stepTwo).bind (fun b2 => (renderStep stepOne).map (fun b1 =>
          b2 ++ b1 ++ errorBox "NameError" "name z is not defined")) ∧
    (traceHtml (.obj outOfOrderProps)).isSome = true :=
  ⟨((panel_steps_then_error outOfOrderProps [stepTwo, stepOne] rfl
      (Or.inl (List.cons_ne_nil _ _))).1).trans (by decide), by decide⟩

/-! ## Escaping and partial payloads -/

theorem getProp_of_not_nullish {v : JVal} (h : nullish v = false) (k : String) :
    getProp v k = some (propOf v k) := by
  cases v <;> simp_all [nullish, getProp, propOf]

theorem nullish_of_truthy {v : JVal} (h : truthy v = true) : nullish v = false := by
  cases v <;> simp_all [nullish, truthy]

theorem hasChanges_returns {x : JVal} (h : nullish x = false) : ∃ b, hasChanges x = some b := by
  simp only [hasChanges, getProp_of_not_nullish h, Option.bind_eq_bind, Option.some_bind]
  split
  · rename_i ht
    simp only [getProp_of_not_nullish (nullish_of_truthy ht), Option.some_bind]
    exact ⟨_, rfl⟩
  · exact ⟨_, rfl⟩

set_option maxRecDepth 100000 in
/-- C9, evaluated where it fails: the value `<b>` of a created variable reaches the diff
line unescaped, and so do the error type in the status badge and the depth label of an
explanation, while the source line, the error block and `escapeHtml` turn the same text
into `&lt;...&gt;`. -/
theorem diffLine_and_badge_not_escaped :
    (renderTrace markupTrace blankView).view.tracePanel
      = "<div class=\"trace-step has-changes\"><div class=\"step-header\">"
        ++ "<span class=\"step-number\">Step 1</span><span class=\"step-event\">line</span></div>"
        ++ "<div class=\"step-source\"><span class=\"line-num\">1</span>x = '&lt;b&gt;'</div>"
        ++ varChange "var-created" (createdText "x" "\"<b>\"") ++ "</div>" ∧
    escapeHtml (.str "\"<b>\"") = some "\"&lt;b&gt;\"" ∧
    statusHtml (.obj [("error", markupError)]) = some (statusBadge "error" "<i>") ∧
    errorBlock markupError = some (errorBox "&lt;i&gt;" "m") ∧
    depthHtml (.obj [("depth", .str "<b>")]) = some (statusBadge "success" "<b>") := by
  refine ⟨by decide, by decide, by decide, by decide, by decide⟩

/-! ## Control-flow annotation -/

theorem controlFlowText_unknown {cf : JVal} (ht : truthy cf = true)
    (hu : recognisedTag (propOf cf "type") = false) : controlFlowText cf = some "" := by
  simp only [recognisedTag, Bool.or_eq_false_iff] at hu
  obtain ⟨⟨⟨⟨⟨h1, h2⟩, h3⟩, h4⟩, h5⟩, h6⟩ := hu
  simp [controlFlowText, getProp_of_truthy ht, h1, h2, h3, h4, h5, h6]

theorem stepHead_congr {sp sp' : Props}
    (h : ∀ k, k ≠ "control_flow" → lookup sp' k = lookup sp k)
    (hc : truthy (lookup sp' "control_flow") = truthy (lookup sp "control_flow")) :
    stepHead (.obj sp') = stepHead (.obj sp) := by
  simp only [stepHead, hasChanges, getProp_obj, h "changes" (by decide), h "step" (by decide),
    h "event" (by decide), h "line_number" (by decide), h "source_line" (by decide),
    Option.bind_eq_bind, Option.some_bind, hc]

theorem diffLines_congr {sp sp' : Props} (h : lookup sp' "changes" = lookup sp "changes") :
    diffLines (.obj sp') = diffLines (.obj sp) := by
  simp only [diffLines, getProp_obj, h]

/-- C11: for a step whose control-flow event is present with a tag outside the six
recognised ones, or without a tag, no annotation line is emitted and the annotation step
does not throw; the step is its header, source line and diff lines, and these are the
same as for any step that differs only in its (present) control-flow event, such as one
with a recognised tag. -/
theorem unknown_tag_no_line (sp : Props)
    (hcf : truthy (lookup sp "control_flow") = true)
    (hu : recognisedTag (propOf (lookup sp "control_flow") "type") = false) :
    controlFlowLines (.obj sp) = some [] ∧
    renderStep (.obj sp)
      = (stepHead (.obj sp)).bind (fun head =>
          (diffLines (.obj sp)).map (fun lines => head ++ String.join lines ++ "</div>")) ∧
    (∀ sp' : Props, (∀ k, k ≠ "control_flow" → lookup sp' k = lookup sp k) →
      truthy (lookup sp' "control_flow") = true →
        stepHead (.obj sp') = stepHead (.obj sp) ∧ diffLines (.obj sp') = diffLines (.obj sp)) := by
  have key : controlFlowLines (.obj sp) = some [] := by
    simp [controlFlowLines, getProp_obj, hcf, controlFlowText_unknown hcf hu]
  refine ⟨key, ?_, ?_⟩
  · simp only [renderStep, key, Option.bind_eq_bind, Option.some_bind]
    cases stepHead (.obj sp) <;> simp
    cases diffLines (.obj sp) <;> simp [String.join]
  · intro sp' h hc'
    exact ⟨stepHead_congr h (by rw [hc', hcf]), diffLines_congr (h "changes" (by decide))⟩

set_option maxRecDepth 100000 in
/-- Witness for C11: a step tagged `generator_yield` renders without annotation line. -/
theorem unknown_tag_no_line_witness :
    controlFlowLines unknownTagStep = some [] ∧
    renderStep unknownTagStep
      = some ("<div class=\"trace-step has-changes has-control-flow\"><div class=\"step-header\">"
          ++ "<span class=\"step-number\">Step 3</span><span class=\"step-event\">line</span></div>"
          ++ "<div class=\"step-source\"><span class=\"line-num\">7</span>yield x</div>"
          ++ varChange "var-created" (createdText "x" "1") ++ "</div>") :=
  ⟨(unknown_tag_no_line
      [("step", .num 3), ("event", .str "line"), ("line_number", .num 7),
        ("source_line", .str "yield x"),
        ("changes", .obj [("created", .obj [("x", tagged "int" (.num 1))])]),
        ("control_flow", .obj [("type", .str "generator_yield"), ("expression", .str "x")])]
      (by decide) (by decide)).1, by decide⟩

theorem append_ne_empty (a b : String) (h : a ≠ "") : a ++ b ≠ "" := by
  intro e
  apply h
  have h1 := congrArg String.data e
  rw [String.data_append] at h1
  have h2 : a.data = [] := (List.append_eq_nil.mp h1).1
  exact String.ext h2

/-- C12 as stated fails on its scenario: with the return value written `{kind, raw}` the
annotation ends in `[object Object]`. -/
theorem function_return_scenario_kind_raw :
    controlFlowLines fibonacciReturnKindRaw
      = some [controlFlowInfo "← return from fibonacci(): [object Object]"] ∧
    controlFlowLines fibonacciReturnKindRaw
      ≠ some [controlFlowInfo "← return from fibonacci(): 8"] := by
  constructor <;> decide

/-- C12 (amended): for a `function_return` event with function name `f` the annotation
text is `← return from f(): ` followed by formatValue of the return value, and the step
carries it, escaped, as its annotation line; the scenario event with the return value
written `{type: "int", value: 8}` renders `← return from fibonacci(): 8`. -/
theorem function_return_text (sp cp : Props) (f : String)
    (hcf : lookup sp "control_flow" = .obj cp)
    (ht : lookup cp "type" = .str "function_return")
    (hf : lookup cp "function" = .str f) :
    controlFlowText (.obj cp)
      = (formatValue (lookup cp "return_value")).map (fun v =>
          "← return from " ++ f ++ "(): " ++ v) ∧
    controlFlowLines (.obj sp)
      = (formatValue (lookup cp "return_value")).map (fun v =>
          [controlFlowInfo (escapeText ("← return from " ++ f ++ "(): " ++ v))]) ∧
    controlFlowLines fibonacciReturnStep
      = some [controlFlowInfo "← return from fibonacci(): 8"] := by
  have h1 : isString (JVal.str "function_return") "function_call" = false := by decide
  have h2 : isString (JVal.str "function_return") "function_return" = true := by decide
  have key : controlFlowText (.obj cp)
      = (formatValue (lookup cp "return_value")).map (fun v =>
          "← return from " ++ f ++ "(): " ++ v) := by
    simp only [controlFlowText, getProp_obj, ht, hf, h1, h2, toStr, Option.bind_eq_bind,
      Option.some_bind]
    cases formatValue (lookup cp "return_value") <;> simp
  refine ⟨key, ?_, by decide⟩
  simp only [controlFlowLines, getProp_obj, hcf, truthy, key, Option.bind_eq_bind,
    Option.some_bind, if_true]
  cases formatValue (lookup cp "return_value") with
  | none => rfl
  | some v =>
    have hne : ("← return from " ++ f ++ "(): " ++ v != "") = true := by
      rw [bne_iff_ne, String.append_assoc, String.append_assoc]
      exact append_ne_empty _ _ (by decide)
    simp only [Option.map_some', Option.some_bind, hne, if_true, escapeHtml, toStr,
      controlFlowInfo]

/-- Witness for C12: the scenario event. -/
theorem function_return_text_witness :
    controlFlowText (.obj fibonacciReturnEvent) = some "← return from fibonacci(): 8" ∧
    controlFlowLines (.obj fibonacciReturnProps)
      = some [controlFlowInfo "← return from fibonacci(): 8"] :=
  ⟨(function_return_text fibonacciReturnProps fibonacciReturnEvent "fibonacci"
      rfl rfl rfl).1.trans (by decide),
   (function_return_text fibonacciReturnProps fibonacciReturnEvent "fibonacci"
      rfl rfl rfl).2.1.trans (by decide)⟩

/-! ## The `has-changes` class -/

theorem mem_insertIndexed_self (p : String × JVal) (qs : Props) : p ∈ insertIndexed p qs := by
  induction qs with
  | nil => simp [insertIndexed]
  | cons r rs ih =>
    simp only [insertIndexed]
    split
    · simp
    · exact List.mem_cons_of_mem _ ih

theorem sortIndexed_ne_nil {qs : Props} (h : qs ≠ []) : sortIndexed qs ≠ [] := by
  cases qs with
  | nil => exact absurd rfl h
  | cons p ps =>
    simp only [sortIndexed]
    exact List.ne_nil_of_mem (mem_insertIndexed_self p _)

theorem ownEntries_eq_nil_iff (ps : Props) : ownEntries ps = [] ↔ ps = [] := by
  constructor
  · intro h
    cases ps with
    | nil => rfl
    | cons p rest =>
      exfalso
      have hm : (p.1, lookup (p :: rest) p.1) ∈ ownProps (p :: rest) := by
        simp [ownProps, firstKeys]
      simp only [ownEntries, List.append_eq_nil] at h
      by_cases hi : isArrayIndex p.1 = true
      · have : (p.1, lookup (p :: rest) p.1)
            ∈ (ownProps (p :: rest)).filter (fun q => isArrayIndex q.1) :=
          List.mem_filter.mpr ⟨hm, hi⟩
        exact sortIndexed_ne_nil (List.ne_nil_of_mem this) h.1
      · have : (p.1, lookup (p :: rest) p.1)
            ∈ (ownProps (p :: rest)).filter (fun q => !isArrayIndex q.1) :=
          List.mem_filter.mpr ⟨hm, by simpa using hi⟩
        exact List.ne_nil_of_mem this h.2
  · intro h; subst h; rfl

theorem indexed_eq_nil_iff (i : Nat) (xs : List JVal) : indexed i xs = [] ↔ xs = [] := by
  cases xs <;> simp [indexed]

theorem codeUnits_eq_nil_iff (cs : List Char) : codeUnits cs = [] ↔ cs = [] := by
  cases cs with
  | nil => simp [codeUnits]
  | cons c cs =>
    simp only [codeUnits]
    split <;> simp

theorem keysOrEmpty_pos (v : JVal) : decide ((keysOrEmpty v).length > 0) = hasEntry v := by
  have h : ∀ l : Props, decide ((l.map Prod.fst).length > 0) = !l.isEmpty := by
    intro l; cases l <;> simp
  cases v with
  | obj ps =>
    simp only [keysOrEmpty, entriesOrEmpty, hasEntry, h]
    cases ps with
    | nil => rfl
    | cons p rest =>
      have := (ownEntries_eq_nil_iff (p :: rest)).not.mpr (List.cons_ne_nil _ _)
      cases hq : ownEntries (p :: rest) with
      | nil => exact absurd hq this
      | cons _ _ => rfl
  | arr xs =>
    simp only [keysOrEmpty, entriesOrEmpty, hasEntry, h]
    cases xs <;> simp [indexed]
  | str s =>
    simp only [keysOrEmpty, entriesOrEmpty, hasEntry, h]
    obtain ⟨cs⟩ := s
    cases cs with
    | nil => rfl
    | cons c cs =>
      have : codeUnits (c :: cs) ≠ [] := (codeUnits_eq_nil_iff _).not.mpr (List.cons_ne_nil _ _)
      cases hq : codeUnits (c :: cs) with
      | nil => exact absurd hq this
      | cons _ _ =>
        simp only [hq, indexed, List.isEmpty_cons, Bool.not_false]
        symm
        rw [bne_iff_ne]
        intro e
        exact absurd (congrArg String.data e) (List.cons_ne_nil _ _)
  | _ => rfl

theorem hasChanges_obj (sp : Props) :
    hasChanges (.obj sp) = some (specHasChanges (lookup sp "changes")) := by
  simp only [hasChanges, getProp_obj, Option.bind_eq_bind, Option.some_bind]
  by_cases ht : truthy (lookup sp "changes") = true
  · simp only [ht, if_true, getProp_of_truthy ht, Option.some_bind, keysOrEmpty_pos,
      specHasChanges]
  · have hf : truthy (lookup sp "changes") = false := by simpa using ht
    simp [hf, specHasChanges, propOf_of_falsy hf, hasEntry]

theorem entriesOrEmpty_eq_nil_iff (v : JVal) : entriesOrEmpty v = [] ↔ hasEntry v = false := by
  have h := keysOrEmpty_pos v
  simp only [keysOrEmpty, List.length_map] at h
  cases he : entriesOrEmpty v with
  | nil => simp [he] at h; simp [← h]
  | cons p ps => simp [he] at h; simp [← h]

theorem stepClasses_eq (b c : Bool) :
    "trace-step" ++ (if b = true then " has-changes" else "")
        ++ (if c = true then " has-control-flow" else "")
      = " ".intercalate (stepClassList b c) := by
  cases b <;> cases c <;> decide

theorem diffLines_nil_of_no_changes {sp : Props}
    (h : specHasChanges (lookup sp "changes") = false) : diffLines (.obj sp) = some [] := by
  simp only [specHasChanges, Bool.or_eq_false_iff] at h
  rw [diffLines_eq (getProp_obj sp "changes"),
    (entriesOrEmpty_eq_nil_iff _).mpr h.1.1, (entriesOrEmpty_eq_nil_iff _).mpr h.1.2,
    (entriesOrEmpty_eq_nil_iff _).mpr h.2]
  rfl

set_option maxRecDepth 100000 in
/-- C13: a rendered step carries the class `has-changes` exactly when one of `created`,
`updated`, `deleted` has an entry, an absent change set or map counting as empty; it does
so exactly when it renders a diff line; steps that differ only in change sets without
entries (absent, without maps, with empty maps) render identically, without diff line
and without `has-changes`. -/
theorem has_changes_class (sp : Props) :
    hasChanges (.obj sp) = some (specHasChanges (lookup sp "changes")) ∧
    (∀ head, stepHead (.obj sp) = some head → ∃ rest,
      head = "<div class=\"" ++ " ".intercalate (stepClassList
          (specHasChanges (lookup sp "changes")) (truthy (lookup sp "control_flow")))
        ++ "\">" ++ rest) ∧
    (∀ c, "has-changes" ∈ stepClassList (specHasChanges (lookup sp "changes")) c
      ↔ specHasChanges (lookup sp "changes") = true) ∧
    (∀ lines, diffLines (.obj sp) = some lines →
      (lines ≠ [] ↔ specHasChanges (lookup sp "changes") = true)) ∧
    (∀ sp' : Props, (∀ k, k ≠ "changes" → lookup sp' k = lookup sp k) →
      specHasChanges (lookup sp "changes") = false →
      specHasChanges (lookup sp' "changes") = false →
        renderStep (.obj sp') = renderStep (.obj sp)) ∧
    renderStep stepMapsAbsent = renderStep stepChangesAbsent ∧
    renderStep stepMapsEmpty = renderStep stepChangesAbsent ∧
    renderStep stepChangesAbsent
      = some ("<div class=\"trace-step\"><div class=\"step-header\">"
          ++ "<span class=\"step-number\">Step 1</span><span class=\"step-event\">line</span></div>"
          ++ "<div class=\"step-source\"><span class=\"line-num\">1</span>pass</div></div>") := by
  refine ⟨hasChanges_obj sp, ?_, ?_, ?_, ?_, by decide, by decide, by decide⟩
  · intro head hh
    simp only [stepHead, hasChanges_obj, getProp_obj, Option.bind_eq_bind, Option.some_bind,
      Option.bind_eq_some] at hh
    obtain ⟨_, _, _, _, _, _, _, _, hh⟩ := hh
    simp only [Option.some.injEq] at hh
    subst hh
    rw [stepClasses_eq]
    simp only [String.append_assoc]
    exact ⟨_, rfl⟩
  · intro c
    cases specHasChanges (lookup sp "changes") <;> cases c <;> decide
  · intro lines hl
    rw [diffLines_eq (getProp_obj sp "changes"), allOk_eq_some_iff] at hl
    have hlen := congrArg List.length hl
    simp only [List.length_append, List.length_map] at hlen
    have e1 := entriesOrEmpty_eq_nil_iff (propOf (lookup sp "changes") "created")
    have e2 := entriesOrEmpty_eq_nil_iff (propOf (lookup sp "changes") "updated")
    have e3 := entriesOrEmpty_eq_nil_iff (propOf (lookup sp "changes") "deleted")
    simp only [← List.length_eq_zero] at e1 e2 e3
    rw [← List.length_pos, ← hlen]
    simp only [specHasChanges, Bool.or_eq_true]
    constructor
    · intro hp
      by_contra hn
      simp only [not_or, Bool.not_eq_true] at hn
      have := e1.mpr hn.1.1
      have := e2.mpr hn.1.2
      have := e3.mpr hn.2
      omega
    · intro hp
      by_contra hn
      have h0 : ∀ v : JVal, (entriesOrEmpty v).length = 0 → hasEntry v ≠ true := by
        intro v hv
        rw [(entriesOrEmpty_eq_nil_iff v).mp (List.length_eq_zero.mp hv)]
        decide
      rcases hp with (hp | hp) | hp
      · exact h0 _ (by omega) hp
      · exact h0 _ (by omega) hp
      · exact h0 _ (by omega) hp
  · intro sp' h hn hn'
    have hd : diffLines (.obj sp') = diffLines (.obj sp) := by
      rw [diffLines_nil_of_no_changes hn, diffLines_nil_of_no_changes hn']
    have hh : stepHead (.obj sp') = stepHead (.obj sp) := by
      simp only [stepHead, hasChanges_obj, hn, hn', getProp_obj, h "control_flow" (by decide),
        h "step" (by decide), h "event" (by decide), h "line_number" (by decide),
        h "source_line" (by decide)]
    have hc : controlFlowLines (.obj sp') = controlFlowLines (.obj sp) := by
      simp only [controlFlowLines, getProp_obj, h "control_flow" (by decide)]
    simp only [renderStep, hd, hh, hc]

/-! ## The explanation panel -/

/-- C14 as stated fails: an `ai_error` that is present but is the empty string is taken
as absent, and the explanation is rendered instead of an error display. -/
theorem empty_ai_error_renders_explanation :
    renderExplanation emptyAiErrorEnvelope blankView
      = ⟨{ blankView with
            explanationPanel := "<div class=\"explanation-summary\">ok</div>",
            explanationDepth := statusBadge "success" "intermediate" }, true⟩ ∧
    (renderExplanation emptyAiErrorEnvelope blankView).view.explanationPanel
      ≠ errorDisplay "" := by
  constructor <;> decide

/-- C14 (amended): when `ai_error` is truthy (a non-empty message) the panel is the error
display carrying the escaped message and the depth badge is empty, whatever else the
envelope holds; when `ai_error` and `explanation` are both absent (falsy) the panel is the
"no explanation" placeholder; the envelope `{ai_error: "rate limited"}` with a fully
populated explanation shows the error display only. -/
theorem ai_error_display (dp : Props) (s : View) :
    (∀ msg, lookup dp "ai_error" = .str msg → msg ≠ "" →
      renderExplanation (.obj dp) s
        = ⟨{ s with explanationPanel := errorDisplay (escapeText msg),
                    explanationDepth := "" }, true⟩) ∧
    (truthy (lookup dp "ai_error") = true → ∀ m, escapeHtml (lookup dp "ai_error") = some m →
      renderExplanation (.obj dp) s
        = ⟨{ s with explanationPanel := errorDisplay m, explanationDepth := "" }, true⟩) ∧
    (truthy (lookup dp "ai_error") = false → truthy (lookup dp "explanation") = false →
      renderExplanation (.obj dp) s
        = ⟨{ s with explanationPanel := noExplanationPlaceholder,
                    explanationDepth := "" }, true⟩) ∧
    renderExplanation rateLimitedEnvelope s
      = ⟨{ s with explanationPanel := errorDisplay "rate limited",
                  explanationDepth := "" }, true⟩ := by
  have general : truthy (lookup dp "ai_error") = true →
      ∀ m, escapeHtml (lookup dp "ai_error") = some m →
      renderExplanation (.obj dp) s
        = ⟨{ s with explanationPanel := errorDisplay m, explanationDepth := "" }, true⟩ := by
    intro ht m hm
    simp only [renderExplanation, getProp_obj, ht, if_true, hm, errorDisplay]
  refine ⟨?_, general, ?_, ?_⟩
  · intro msg hmsg hne
    apply general
    · rw [hmsg]; simpa [truthy] using hne
    · rw [hmsg]; rfl
  · intro h1 h2
    simp [renderExplanation, getProp_obj, h1, h2]
  · have h1 : truthy (lookup [("ai_error", JVal.str "rate limited"),
        ("explanation", .obj [("depth", .str "advanced"), ("summary", .str "A loop."),
          ("step_explanations", .arr [.obj [("step", .num 1), ("line", .num 2),
            ("explanation", .str "binds a")]]),
          ("key_concepts", .arr [.str "loops"])])] "ai_error") = true := by decide
    simp only [rateLimitedEnvelope, renderExplanation, getProp_obj, h1, if_true]
    rfl

theorem allOk_map_eq {α : Type} (l : List α) (f : α → Option String) (g : α → String)
    (h : ∀ x ∈ l, f x = some (g x)) : allOk (l.map f) = some (l.map g) := by
  rw [allOk_eq_some_iff, List.map_map]
  apply List.map_congr_left
  intro x hx
  simp [h x hx]

theorem toStr_scalarText {v : JVal} (h : isScalar v = true) : toStr v = some (scalarText v) := by
  cases v <;> simp_all [isScalar, scalarText, toStr]

theorem escapeHtml_optionalText {v : JVal} (h : optionalText v = true) :
    escapeHtml v = some (escapeText (textOf v)) := by
  cases v <;> simp_all [optionalText, escapeHtml, textOf, toStr] <;> rfl

theorem depthHtml_typed {expl : JVal} (ht : truthy expl = true)
    (h : optionalText (propOf expl "depth") = true) :
    depthHtml expl = some (statusBadge "success" (depthLabel expl)) := by
  simp only [depthHtml, getProp_of_truthy ht, Option.bind_eq_bind, Option.some_bind,
    depthLabel, statusBadge]
  cases hd : propOf expl "depth" with
  | undefined => rfl
  | null => rfl
  | str d =>
    by_cases e : d = ""
    · subst e; rfl
    · have : truthy (.str d) = true := by simpa [truthy] using e
      simp only [this, if_true, toStr, Option.some_bind, textOf, e, if_false]
      rfl
  | bool b => rw [hd] at h; simp [optionalText] at h
  | num n => rw [hd] at h; simp [optionalText] at h
  | float t => rw [hd] at h; simp [optionalText] at h
  | arr xs => rw [hd] at h; simp [optionalText] at h
  | obj ps => rw [hd] at h; simp [optionalText] at h

theorem summaryHtml_typed {expl : JVal} (ht : truthy expl = true)
    (h : optionalText (propOf expl "summary") = true) :
    summaryHtml expl = some (summaryBlock expl) := by
  simp only [summaryHtml, getProp_of_truthy ht, Option.bind_eq_bind, Option.some_bind,
    summaryBlock, escapeHtml_optionalText h]
  cases hd : propOf expl "summary" with
  | undefined => rfl
  | null => rfl
  | str d =>
    by_cases e : d = ""
    · subst e; rfl
    · have : truthy (.str d) = true := by simpa [truthy] using e
      simp only [this, if_true, textOf, e, if_false]
  | bool b => rw [hd] at h; simp [optionalText] at h
  | num n => rw [hd] at h; simp [optionalText] at h
  | float t => rw [hd] at h; simp [optionalText] at h
  | arr xs => rw [hd] at h; simp [optionalText] at h
  | obj ps => rw [hd] at h; simp [optionalText] at h

theorem explanationStep_typed {se : JVal} (h : stepExplanationTyped se = true) :
    explanationStep se = some (stepEntry se) := by
  cases se with
  | obj ps =>
    simp only [stepExplanationTyped, Bool.and_eq_true] at h
    simp only [explanationStep, getProp_obj, toStr_scalarText h.1.1, toStr_scalarText h.1.2,
      escapeHtml_optionalText h.2, Option.bind_eq_bind, Option.some_bind, stepEntry, propOf,
      Option.getD_some]
  | _ => simp [stepExplanationTyped] at h

theorem stepExplanationsHtml_typed {expl : JVal} (ht : truthy expl = true)
    (h : optionalSeq stepExplanationTyped (propOf expl "step_explanations") = true) :
    stepExplanationsHtml expl
      = some (String.join ((itemsOf (propOf expl "step_explanations")).map stepEntry)) := by
  simp only [stepExplanationsHtml, getProp_of_truthy ht, Option.bind_eq_bind, Option.some_bind]
  cases hd : propOf expl "step_explanations" with
  | arr xs =>
    rw [hd] at h
    simp only [optionalSeq, List.all_eq_true] at h
    simp only [truthy, if_true, iterate, Option.some_bind, itemsOf,
      allOk_map_eq xs explanationStep stepEntry (fun x hx => explanationStep_typed (h x hx))]
  | undefined => rfl
  | null => rfl
  | bool b => rw [hd] at h; simp [optionalSeq] at h
  | num n => rw [hd] at h; simp [optionalSeq] at h
  | float t => rw [hd] at h; simp [optionalSeq] at h
  | str t => rw [hd] at h; simp [optionalSeq] at h
  | obj ps => rw [hd] at h; simp [optionalSeq] at h

theorem conceptTag_typed {c : JVal} (h : isText c = true) : conceptTag c = some (conceptTagOf c) := by
  cases c <;> simp_all [isText, conceptTag, conceptTagOf, escapeHtml, toStr, textOf]

theorem keyConceptsHtml_typed {expl : JVal} (ht : truthy expl = true)
    (h : optionalSeq isText (propOf expl "key_concepts") = true) :
    keyConceptsHtml expl = some (conceptList expl) := by
  simp only [keyConceptsHtml, hasKeyConcepts, getProp_of_truthy ht, Option.bind_eq_bind,
    Option.some_bind, conceptList]
  cases hd : propOf expl "key_concepts" with
  | arr xs =>
    rw [hd] at h
    simp only [optionalSeq, List.all_eq_true] at h
    have hl : getProp (.arr xs) "length" = some (.num xs.length) := by simp [getProp]
    cases xs with
    | nil => simp [truthy, hl, gtZero, itemsOf]
    | cons c cs =>
      have hpos : decide ((0 : Int) < ((c :: cs).length : Nat)) = true := by
        simp only [List.length_cons, decide_eq_true_eq]; omega
      simp only [truthy, if_true, hl, Option.some_bind, gtZero, hpos, iterate, itemsOf,
        allOk_map_eq (c :: cs) conceptTag conceptTagOf (fun x hx => conceptTag_typed (h x hx))]
  | undefined => rfl
  | null => rfl
  | bool b => rw [hd] at h; simp [optionalSeq] at h
  | num n => rw [hd] at h; simp [optionalSeq] at h
  | float t => rw [hd] at h; simp [optionalSeq] at h
  | str t => rw [hd] at h; simp [optionalSeq] at h
  | obj ps => rw [hd] at h; simp [optionalSeq] at h

/-- C18: with `ai_error` absent and a well-typed `explanation` present, the depth badge is
labelled `explanation.depth`, or "intermediate" when `depth` is absent or empty, and the
panel is, in this order, the summary block (omitted when the summary is absent or empty),
one entry per item of `step_explanations` in sequence order labelled
`Step {step} · Line {line}` with its explanation text, and the concept-tag list with one
tag per key concept (omitted when `key_concepts` is absent or empty). -/
theorem explanation_panel (dp : Props) (s : View)
    (hai : truthy (lookup dp "ai_error") = false)
    (hex : truthy (lookup dp "explanation") = true)
    (hty : explanationTyped (lookup dp "explanation") = true) :
    renderExplanation (.obj dp) s
      = ⟨{ s with explanationDepth := statusBadge "success" (depthLabel (lookup dp "explanation")),
                  explanationPanel := specExplanationPanel (lookup dp "explanation") }, true⟩ := by
  simp only [explanationTyped, Bool.and_eq_true] at hty
  obtain ⟨⟨⟨h1, h2⟩, h3⟩, h4⟩ := hty
  simp only [renderExplanation, getProp_obj, hai, hex, depthHtml_typed hex h1, explanationHtml,
    summaryHtml_typed hex h2, stepExplanationsHtml_typed hex h3, keyConceptsHtml_typed hex h4,
    Option.bind_eq_bind, Option.some_bind, specExplanationPanel]
  rfl

set_option maxRecDepth 100000 in
/-- Witness for C18: a fully populated explanation. -/
theorem explanation_panel_witness :
    renderExplanation (.obj fullExplanationProps) blankView
      = ⟨{ blankView with
            explanationDepth := statusBadge "success" "advanced",
            explanationPanel :=
              "<div class=\"explanation-summary\">Adds a &amp; b.</div>"
              ++ "<div class=\"explanation-step\">"
              ++ "<div class=\"explanation-step-header\">Step 1 · Line 2</div>"
              ++ "<div class=\"explanation-text\">binds a</div></div>"
              ++ "<div class=\"explanation-step\">"
              ++ "<div class=\"explanation-step-header\">Step 2 · Line 3</div>"
              ++ "<div class=\"explanation-text\">a &lt; b</div></div>"
              ++ "<div class=\"key-concepts\"><span class=\"concept-tag\">loops</span>"
              ++ "<span class=\"concept-tag\">tuples</span></div>" }, true⟩ :=
  (explanation_panel fullExplanationProps blankView (by decide) (by decide) (by decide)).trans
    (by decide)

/-! ## Scalars, null and the shape of tagged values -/

/-- C15: formatValue returns `None` for null and for an absent (undefined) input, and a
null element inside a list, a tuple or a dict is rendered as `None` in its place. -/
theorem formatValue_null :
    formatValue .null = some "None" ∧ formatValue .undefined = some "None" ∧
    (∀ (pre post : List JVal) (a b : List String),
      allOk (pre.map formatValue) = some a → allOk (post.map formatValue) = some b →
        formatValue (tagged "list" (.arr (pre ++ .null :: post)))
          = some ("[" ++ ", ".intercalate (a ++ "None" :: b) ++ "]") ∧
        formatValue (tagged "tuple" (.arr (pre ++ .null :: post)))
          = some ("(" ++ ", ".intercalate (a ++ "None" :: b) ++ ")")) ∧
    (∀ (qs : Props) (k : String) (es : List String), (k, JVal.null) ∈ ownEntries qs →
      allOk ((ownEntries qs).map (fun p => (formatValue p.2).map (fun s => p.1 ++ ": " ++ s)))
        = some es →
      (k ++ ": None") ∈ es ∧
      formatValue (tagged "dict" (.obj qs)) = some ("\x7b" ++ ", ".intercalate es ++ "\x7d")) ∧
    formatValue (tagged "list" (.arr [tagged "int" (.num 1), .null])) = some "[1, None]" ∧
    formatValue (tagged "tuple" (.arr [.null])) = some "(None)" ∧
    formatValue (tagged "dict" (.obj [("k", .null)])) = some "\x7bk: None\x7d" := by
  refine ⟨by decide, by decide, ?_, ?_, by decide, by decide, by decide⟩
  · intro pre post a b ha hb
    have hn : formatValue .null = some "None" := by decide
    have hall : allOk ((pre ++ JVal.null :: post).map formatValue) = some (a ++ "None" :: b) := by
      rw [allOk_eq_some_iff] at ha hb ⊢
      simp only [List.map_append, List.map_cons, ha, hb, hn]
    constructor
    · rw [formatValue_tagged, if_neg (by decide)]
      simp only [hall, Option.map_some']
      rw [if_neg (by decide)]
    · rw [formatValue_tagged, if_neg (by decide)]
      simp only [hall, Option.map_some', if_true]
  · intro qs k es hk hes
    constructor
    · rw [allOk_eq_some_iff] at hes
      have hm : some (k ++ ": None") ∈ (ownEntries qs).map
          (fun p => (formatValue p.2).map (fun s => p.1 ++ ": " ++ s)) :=
        List.mem_map.mpr ⟨(k, .null), hk, by
          show Option.map _ (formatValue .null) = _
          rw [show formatValue .null = some "None" by decide]
          simp only [Option.map_some', String.append_assoc]
          rfl⟩
      rw [hes] at hm
      simpa using hm
    · rw [formatValue_tagged, if_neg (by decide)]
      simp only [hes, Option.map_some']

theorem formatValue_obj_scalar {ps : Props} (ht : hasKey ps "type" = true)
    (hv : hasKey ps "value" = true) (h1 : isString (lookup ps "type") "str" = false)
    (h2 : isContainer (lookup ps "value") = false) :
    formatValue (.obj ps) = toStr (lookup ps "value") := by
  rw [formatValue_obj, ht, hv, h1]
  cases hval : lookup ps "value" <;> simp_all [isContainer]

theorem formatValue_obj_arr {ps : Props} (ht : hasKey ps "type" = true)
    (hv : hasKey ps "value" = true) (h1 : isString (lookup ps "type") "str" = false)
    {es : List JVal} (hes : lookup ps "value" = .arr es) :
    formatValue (.obj ps) = (allOk (es.map formatValue)).map (fun ss =>
      if isString (lookup ps "type") "tuple" then "(" ++ ", ".intercalate ss ++ ")"
      else "[" ++ ", ".intercalate ss ++ "]") := by
  rw [formatValue_obj, ht, hv, h1, hes]
  simp

theorem formatValue_obj_props {ps : Props} (ht : hasKey ps "type" = true)
    (hv : hasKey ps "value" = true) (h1 : isString (lookup ps "type") "str" = false)
    {qs : Props} (hqs : lookup ps "value" = .obj qs) :
    formatValue (.obj ps)
      = (allOk ((ownEntries qs).map (fun p =>
          (formatValue p.2).map (fun s => p.1 ++ ": " ++ s)))).map
        (fun es => "\x7b" ++ ", ".intercalate es ++ "\x7d") := by
  rw [formatValue_obj, ht, hv, h1, hqs]
  simp

theorem formatValue_obj_str {ps : Props} (ht : hasKey ps "type" = true)
    (hv : hasKey ps "value" = true) (h1 : isString (lookup ps "type") "str" = true) :
    formatValue (.obj ps) = (toStr (lookup ps "value")).map (fun s => "\"" ++ s ++ "\"") := by
  rw [formatValue_obj, ht, hv, h1]
  rfl

/-- C16, evaluated where it fails: the well-formed traced value of kind `none`, tagged
`none` with payload null, is formatted as `null`, while a bare null gives `None`. -/
theorem formatValue_tagged_none :
    formatValue (tagged "none" .null) = some "null" ∧
    formatValue (tagged "none" .null) ≠ some "None" ∧
    formatValue .null = some "None" := by
  refine ⟨by decide, by decide, by decide⟩

/-- C17 as stated fails: a value tagged `other` whose payload is an array is rendered as a
`[...]` container, and one whose payload is an object as a `{...}` container, not as the
string conversion of the payload. -/
theorem formatValue_other_container :
    formatValue (tagged "other" (.arr [.num 1, .num 2])) = some "[1, 2]" ∧
    toStr (.arr [.num 1, .num 2]) = some "1,2" ∧
    formatValue (tagged "other" (.obj [("a", .num 1)])) = some "\x7ba: 1\x7d" ∧
    toStr (.obj [("a", .num 1)]) = some "[object Object]" := by
  refine ⟨by decide, by decide, by decide, by decide⟩

/-- C17 (amended): a tagged value whose tag is not `str` and whose payload is a scalar
(neither an array nor an object) is formatted as the string conversion of the payload,
which exists, nothing added; with a tag other than `str` a payload that is an array is
rendered as a `[...]` container (`(...)` for the tag `tuple`) of its formatted elements
and a payload that is an object as a `{...}` container of its formatted entries, whatever
that tag is; a value tagged `str` is the string conversion of its payload wrapped in double
quotes, nothing escaped, whatever the shape of the payload: a string payload is returned
between the quotes as it is, and the array payload `[1, 2]` gives `"1,2"`. -/
theorem formatValue_scalar_payload (ps : Props)
    (ht : hasKey ps "type" = true) (hv : hasKey ps "value" = true) :
    (isString (lookup ps "type") "str" = false → isContainer (lookup ps "value") = false →
      formatValue (.obj ps) = toStr (lookup ps "value") ∧
      ∃ s, toStr (lookup ps "value") = some s) ∧
    (isString (lookup ps "type") "str" = false → ∀ es, lookup ps "value" = .arr es →
      formatValue (.obj ps) = (allOk (es.map formatValue)).map (fun ss =>
        if isString (lookup ps "type") "tuple" then "(" ++ ", ".intercalate ss ++ ")"
        else "[" ++ ", ".intercalate ss ++ "]")) ∧
    (isString (lookup ps "type") "str" = false → ∀ qs, lookup ps "value" = .obj qs →
      formatValue (.obj ps)
        = (allOk ((ownEntries qs).map (fun p =>
            (formatValue p.2).map (fun s => p.1 ++ ": " ++ s)))).map
          (fun es => "\x7b" ++ ", ".intercalate es ++ "\x7d")) ∧
    (isString (lookup ps "type") "str" = true →
      formatValue (.obj ps) = (toStr (lookup ps "value")).map (fun s => "\"" ++ s ++ "\"")) ∧
    (isString (lookup ps "type") "str" = true → ∀ s, lookup ps "value" = .str s →
      formatValue (.obj ps) = some ("\"" ++ s ++ "\"")) ∧
    formatValue (tagged "str" (.arr [.num 1, .num 2])) = some "\"1,2\"" ∧
    formatValue (tagged "float" (.float "3.14")) = some "3.14" ∧
    formatValue (tagged "int" (.arr [tagged "int" (.num 1)])) = some "[1]" := by
  refine ⟨fun h1 h2 => ⟨formatValue_obj_scalar ht hv h1 h2, ?_⟩,
    fun h1 _ hes => formatValue_obj_arr ht hv h1 hes,
    fun h1 _ hqs => formatValue_obj_props ht hv h1 hqs,
    fun h1 => formatValue_obj_str ht hv h1, ?_, by decide, by decide, by decide⟩
  · cases hval : lookup ps "value" with
    | arr xs => rw [hval] at h2; simp [isContainer] at h2
    | obj qs => rw [hval] at h2; simp [isContainer] at h2
    | undefined => exact ⟨_, rfl⟩
    | null => exact ⟨_, rfl⟩
    | bool b => exact ⟨_, rfl⟩
    | num n => exact ⟨_, rfl⟩
    | float t => exact ⟨_, rfl⟩
    | str t => exact ⟨_, rfl⟩
  · intro h1 s hs
    rw [formatValue_obj_str ht hv h1, hs]
    rfl

/-- Witness for C17: a value tagged `float` with a payload that is no integer, a value
tagged `other` with a text payload, and a `str` value. -/
theorem formatValue_scalar_payload_witness :
    formatValue (.obj [("type", .str "float"), ("value", .float "3.14")]) = some "3.14" ∧
    formatValue (.obj [("type", .str "other"), ("value", .str "<Foo object>")])
      = some "<Foo object>" ∧
    formatValue (.obj [("type", .str "str"), ("value", .str "a\"b<c")])
      = some "\"a\"b<c\"" :=
  ⟨(((formatValue_scalar_payload [("type", .str "float"), ("value", .float "3.14")]
      rfl rfl).1 (by decide) (by decide)).1).trans (by decide),
   (((formatValue_scalar_payload [("type", .str "other"), ("value", .str "<Foo object>")]
      rfl rfl).1 (by decide) (by decide)).1).trans (by decide),
   (formatValue_scalar_payload [("type", .str "str"), ("value", .str "a\"b<c")]
      rfl rfl).2.2.2.2.1 (by decide) _ rfl⟩

/-- C20: formatValue treats an object as a tagged value exactly when it has both a `type`
and a `value` property, and then goes by the shape of `value`: `type` "str" gives the
quoted form; otherwise an array gives `(...)` for the tag `tuple` and `[...]` for every
other tag, an object gives `{...}` for every tag, and anything else String(value); every
other input that is not null or undefined, such as an object with `kind` and `raw`, is
returned as String(input), without recursion into it. -/
theorem formatValue_dispatch (ps : Props) :
    ((hasKey ps "type" && hasKey ps "value") = false →
      formatValue (.obj ps) = toStr (.obj ps)) ∧
    ((hasKey ps "type" && hasKey ps "value") = true →
      (isString (lookup ps "type") "str" = true →
        formatValue (.obj ps) = (toStr (lookup ps "value")).map (fun s => "\"" ++ s ++ "\"")) ∧
      (isString (lookup ps "type") "str" = false → ∀ es, lookup ps "value" = .arr es →
        formatValue (.obj ps) = (allOk (es.map formatValue)).map (fun ss =>
          if isString (lookup ps "type") "tuple" then "(" ++ ", ".intercalate ss ++ ")"
          else "[" ++ ", ".intercalate ss ++ "]")) ∧
      (isString (lookup ps "type") "str" = false → ∀ qs, lookup ps "value" = .obj qs →
        formatValue (.obj ps)
          = (allOk ((ownEntries qs).map (fun p =>
              (formatValue p.2).map (fun s => p.1 ++ ": " ++ s)))).map
            (fun es => "\x7b" ++ ", ".intercalate es ++ "\x7d")) ∧
      (isString (lookup ps "type") "str" = false → isContainer (lookup ps "value") = false →
        formatValue (.obj ps) = toStr (lookup ps "value"))) ∧
    (∀ b, formatValue (.bool b) = toStr (.bool b)) ∧
    (∀ n, formatValue (.num n) = toStr (.num n)) ∧
    (∀ s, formatValue (.str s) = some s) ∧
    (∀ xs, formatValue (.arr xs) = toStr (.arr xs)) ∧
    formatValue (.obj [("kind", .str "list"), ("raw", .arr [tagged "int" (.num 1)])])
      = some "[object Object]" ∧
    formatValue (.arr [tagged "int" (.num 1), .num 2]) = some "[object Object],2" ∧
    formatValue (tagged "set" (.arr [tagged "int" (.num 1)])) = some "[1]" ∧
    formatValue (tagged "int" (.obj [("a", .num 1)])) = some "\x7ba: 1\x7d" := by
  refine ⟨?_, ?_, fun _ => rfl, fun _ => rfl, fun _ => rfl, fun _ => rfl,
    by decide, by decide, by decide, by decide⟩
  · intro h
    rw [formatValue_obj, h]
    rfl
  · intro h
    simp only [Bool.and_eq_true] at h
    exact ⟨fun h1 => formatValue_obj_str h.1 h.2 h1,
      fun h1 _ hes => formatValue_obj_arr h.1 h.2 h1 hes,
      fun h1 _ hqs => formatValue_obj_props h.1 h.2 h1 hqs,
      fun h1 h2 => formatValue_obj_scalar h.1 h.2 h1 h2⟩

/-! ## Re-rendering -/

/-- C19 as stated fails on a trace for which renderTrace throws: the badge is replaced
but the panel keeps what the earlier render left, so the resulting view depends on the
prior view. -/
theorem rerender_after_throw_keeps_old_panel :
    (renderTrace noStepsFieldTrace blankView).view.tracePanel = "" ∧
    (renderTrace noStepsFieldTrace staleView).view.tracePanel = "old panel" ∧
    (renderTrace noStepsFieldTrace staleView).view.traceStatus
      = statusBadge "success" "0 steps" ∧
    (renderTrace noStepsFieldTrace blankView).view.tracePanel
      ≠ (renderTrace noStepsFieldTrace staleView).view.tracePanel := by
  refine ⟨by decide, by decide, by decide, by decide⟩

set_option maxRecDepth 100000 in
/-- C19 (amended): rendering a trace twice leaves the view that rendering it once leaves,
for every trace and every prior view; and whenever renderTrace returns, it returns from
every prior view, and the status badge and the trace panel it leaves are the badge and
the panel computed from the trace alone: a re-render replaces them, it never appends. -/
theorem rerender (t : JVal) (s : View) :
    renderTrace t (renderTrace t s).view = renderTrace t s ∧
    ((renderTrace t s).returned = true → ∀ s' : View,
      (renderTrace t s').returned = true ∧
      (renderTrace t s').view.traceStatus = (renderTrace t s).view.traceStatus ∧
      (renderTrace t s').view.tracePanel = (renderTrace t s).view.tracePanel ∧
      statusHtml t = some (renderTrace t s).view.traceStatus ∧
      traceHtml t = some (renderTrace t s).view.tracePanel) ∧
    (renderTrace (.obj outOfOrderProps) staleView).view.tracePanel
      = (renderTrace (.obj outOfOrderProps) blankView).view.tracePanel ∧
    (renderTrace (.obj outOfOrderProps) staleView).view.traceStatus
      = statusBadge "error" "NameError" := by
  refine ⟨?_, ?_, by decide, by decide⟩
  · simp only [renderTrace]
    cases h1 : statusHtml t with
    | none => simp [h1]
    | some b =>
      cases h2 : traceHtml t with
      | none => simp [h1, h2]
      | some html => simp [h1, h2]
  · intro h s'
    simp only [renderTrace] at h ⊢
    cases h1 : statusHtml t with
    | none => simp [h1] at h
    | some b =>
      cases h2 : traceHtml t with
      | none => simp [h1, h2] at h
      | some html => simp

/-! ## Payloads on which the render functions return -/

mutual
theorem toStr_isSome : ∀ v : JVal, (toStr v).isSome = printable v
  | .undefined => rfl
  | .null => rfl
  | .bool _ => rfl
  | .num _ => rfl
  | .float _ => rfl
  | .str _ => rfl
  | .arr xs => by
    have := joinItems_isSome xs
    simp only [toStr, printable, Option.isSome_map', this]
  | .obj ps => by
    simp only [toStr, printable]
    cases hasKey ps "toString" <;> rfl
theorem joinItems_isSome : ∀ xs : List JVal, (joinItems xs).isSome = printableItems xs
  | [] => rfl
  | x :: xs => by
    have h1 := joinItems_isSome xs
    have h2 := toStr_isSome x
    cases x with
    | arr ys =>
      simp only [joinItems, printableItems, ← h1, ← h2]
      cases toStr (.arr ys) <;> cases joinItems xs <;> rfl
    | obj ps =>
      simp only [joinItems, printableItems, ← h1, ← h2]
      cases toStr (.obj ps) <;> cases joinItems xs <;> rfl
    | _ =>
      simp only [joinItems, printableItems, ← h1, printable, toStr]
      cases joinItems xs <;> rfl
end

theorem escapeHtml_isSome (v : JVal) : (escapeHtml v).isSome = printable v := by
  rw [← toStr_isSome]
  cases v <;> simp [escapeHtml, toStr]

theorem allOk_isSome_eq {α : Type} (l : List α) (f : α → Option String) :
    (allOk (l.map f)).isSome = l.all (fun a => (f a).isSome) := by
  induction l with
  | nil => rfl
  | cons a l ih =>
    simp only [List.map_cons, List.all_cons]
    cases h : f a with
    | none => simp [allOk]
    | some s => simp [allOk, ih]

theorem allOk_append_isSome (a b : List (Option String)) :
    (allOk (a ++ b)).isSome = ((allOk a).isSome && (allOk b).isSome) := by
  induction a with
  | nil => simp [allOk]
  | cons x a ih =>
    cases x with
    | none => simp [allOk]
    | some s => simp [allOk, ih]

theorem getProp_of_nullish {v : JVal} (h : nullish v = true) (k : String) : getProp v k = none := by
  cases v <;> simp_all [nullish, getProp]

theorem formats_of_not_container {v : JVal} (h : isContainer v = false) : formats v = true := by
  cases v <;> first | rfl | simp [isContainer] at h

theorem formats_arr (xs : List JVal) : formats (.arr xs) = printable (.arr xs) := by
  rw [← toStr_isSome]
  rfl

theorem formats_obj_untagged {ps : Props} (h : (hasKey ps "type" && hasKey ps "value") = false) :
    formats (.obj ps) = !hasKey ps "toString" := by
  have e : formatValue (.obj ps) = toStr (.obj ps) := by
    rw [formatValue_obj, h]
    rfl
  rw [formats, e, toStr_isSome]
  rfl

theorem createdLine_isSome (p : String × JVal) : (createdLine p).isSome = formats p.2 := by
  simp only [createdLine, formats, Option.bind_eq_bind]
  cases formatValue p.2 <;> rfl

theorem deletedLine_isSome (p : String × JVal) : (deletedLine p).isSome = formats p.2 := by
  simp only [deletedLine, formats, Option.bind_eq_bind]
  cases formatValue p.2 <;> rfl

theorem updatedLine_isSome (p : String × JVal) :
    (updatedLine p).isSome = updatedEntryRenders p.2 := by
  by_cases hn : nullish p.2 = true
  · simp [updatedLine, updatedEntryRenders, getProp_of_nullish hn, hn]
  · have hf : nullish p.2 = false := by simpa using hn
    simp only [updatedLine, updatedEntryRenders, getProp_of_not_nullish hf, formats, hf,
      Option.bind_eq_bind, Option.some_bind, Bool.not_false, Bool.true_and]
    cases formatValue (propOf p.2 "from") <;> cases formatValue (propOf p.2 "to") <;> rfl

theorem diffLines_isSome {x : JVal} (hn : nullish x = false) :
    (diffLines x).isSome = changesRender (propOf x "changes") := by
  rw [diffLines_eq (getProp_of_not_nullish hn "changes"), allOk_append_isSome,
    allOk_append_isSome, allOk_isSome_eq, allOk_isSome_eq, allOk_isSome_eq]
  simp only [createdLine_isSome, deletedLine_isSome, updatedLine_isSome, changesRender]
  by_cases ht : truthy (propOf x "changes") = true
  · simp [ht]
  · have hf : truthy (propOf x "changes") = false := by simpa using ht
    simp [hf, propOf_of_falsy hf, entriesOrEmpty]

theorem controlFlowText_isSome {cf : JVal} (ht : truthy cf = true) :
    (controlFlowText cf).isSome = controlFlowRenders cf := by
  simp only [controlFlowText, controlFlowRenders, getProp_of_truthy ht, ht, formats,
    ← toStr_isSome, Option.bind_eq_bind, Option.some_bind, Bool.not_true, Bool.false_or]
  by_cases h1 : isString (propOf cf "type") "function_call" = true
  · simp only [h1, if_true]
    cases toStr (propOf cf "function") <;> cases toStr (propOf cf "call_depth") <;> rfl
  · simp only [h1, Bool.false_eq_true, if_false]
    by_cases h2 : isString (propOf cf "type") "function_return" = true
    · simp only [h2, if_true]
      cases toStr (propOf cf "function") <;> cases formatValue (propOf cf "return_value") <;> rfl
    · simp only [h2, Bool.false_eq_true, if_false]
      by_cases h3 : isString (propOf cf "type") "conditional" = true
      · simp only [h3, if_true, Bool.true_or]
        cases toStr (propOf cf "expression") <;> rfl
      · simp only [h3, Bool.false_eq_true, if_false, Bool.false_or]
        by_cases h4 : isString (propOf cf "type") "loop" = true
        · simp only [h4, if_true, Bool.true_or]
          cases toStr (propOf cf "expression") <;> rfl
        · simp only [h4, Bool.false_eq_true, if_false, Bool.false_or]
          by_cases h5 : isString (propOf cf "type") "exception" = true
          · have h6 : isString (propOf cf "type") "return_statement" = false := by
              cases hv : propOf cf "type" <;> simp_all [isString]
            simp only [h5, h6, if_true, Bool.false_eq_true, if_false]
            cases toStr (propOf cf "exception_type") <;>
              cases toStr (propOf cf "exception_message") <;> rfl
          · simp only [h5, Bool.false_eq_true, if_false]
            by_cases h6 : isString (propOf cf "type") "return_statement" = true
            · simp only [h6, if_true]
              cases toStr (propOf cf "expression") <;> rfl
            · simp only [h6, Bool.false_eq_true, if_false]
              rfl

theorem controlFlowLines_isSome {x : JVal} (hn : nullish x = false) :
    (controlFlowLines x).isSome = controlFlowRenders (propOf x "control_flow") := by
  simp only [controlFlowLines, getProp_of_not_nullish hn, Option.bind_eq_bind, Option.some_bind]
  by_cases ht : truthy (propOf x "control_flow") = true
  · rw [← controlFlowText_isSome ht]
    simp only [ht, if_true]
    cases controlFlowText (propOf x "control_flow") with
    | none => rfl
    | some t =>
      simp only [Option.some_bind]
      split <;> rfl
  · have hf : truthy (propOf x "control_flow") = false := by simpa using ht
    simp [hf, controlFlowRenders]

theorem stepHead_isSome {x : JVal} (hn : nullish x = false) :
    (stepHead x).isSome = (printable (propOf x "step") && printable (propOf x "event")
      && printable (propOf x "line_number") && printable (propOf x "source_line")) := by
  obtain ⟨b, hb⟩ := hasChanges_returns hn
  rw [← toStr_isSome (propOf x "step"), ← toStr_isSome (propOf x "event"),
    ← toStr_isSome (propOf x "line_number"), ← escapeHtml_isSome (propOf x "source_line")]
  simp only [stepHead, hb, getProp_of_not_nullish hn, Option.bind_eq_bind, Option.some_bind]
  cases toStr (propOf x "step") <;> cases toStr (propOf x "event") <;>
    cases toStr (propOf x "line_number") <;> cases escapeHtml (propOf x "source_line") <;> rfl

theorem renderStep_isSome (x : JVal) : (renderStep x).isSome = stepRenders x := by
  by_cases hn : nullish x = true
  · simp [renderStep, stepHead, hasChanges, getProp_of_nullish hn, stepRenders, hn]
  · have hf : nullish x = false := by simpa using hn
    have h1 := stepHead_isSome hf
    have h2 := diffLines_isSome hf
    have h3 := controlFlowLines_isSome hf
    simp only [stepRenders, hf, ← h1, ← h2, ← h3, renderStep, Option.bind_eq_bind,
      Bool.not_false, Bool.true_and]
    cases stepHead x <;> cases diffLines x <;> cases controlFlowLines x <;> rfl

theorem statusHtml_isSome {t : JVal} (hn : nullish t = false) :
    (statusHtml t).isSome = (if truthy (propOf t "error") then
      printable (propOf (propOf t "error") "type") else printable (propOf t "step_count")) := by
  simp only [statusHtml, getProp_of_not_nullish hn, ← toStr_isSome, Option.bind_eq_bind,
    Option.some_bind]
  by_cases he : truthy (propOf t "error") = true
  · simp only [he, if_true, getProp_of_truthy he, Option.some_bind]
    cases toStr (propOf (propOf t "error") "type") <;> rfl
  · simp only [he, Bool.false_eq_true, if_false]
    split <;> cases toStr (propOf t "step_count") <;> rfl

theorem errorBlock_isSome {err : JVal} (ht : truthy err = true) :
    (errorBlock err).isSome
      = (printable (propOf err "type") && printable (propOf err "message")) := by
  rw [errorBlock_of_truthy ht, ← escapeHtml_isSome, ← escapeHtml_isSome]
  cases escapeHtml (propOf err "type") <;> cases escapeHtml (propOf err "message") <;> rfl

theorem iterate_length {v : JVal} {xs : List JVal} (h : iterate v = some xs) :
    ∃ n, getProp v "length" = some (.num n) := by
  cases v with
  | arr ys => exact ⟨ys.length, by simp [getProp]⟩
  | str t => exact ⟨utf16Length t, by simp [getProp]⟩
  | _ => simp [iterate] at h

theorem traceHtml_isSome {t : JVal} (hn : nullish t = false) :
    (traceHtml t).isSome
      = ((match iterate (propOf t "steps") with
          | some xs => xs.all stepRenders
          | none => false)
        && (if truthy (propOf t "error") then
          printable (propOf (propOf t "error") "type")
            && printable (propOf (propOf t "error") "message") else true)) := by
  simp only [traceHtml, getProp_of_not_nullish hn, Option.bind_eq_bind, Option.some_bind]
  cases hi : iterate (propOf t "steps") with
  | none => simp
  | some xs =>
    obtain ⟨n, hl⟩ := iterate_length hi
    have hb := allOk_isSome_eq xs renderStep
    simp only [renderStep_isSome] at hb
    simp only [Option.some_bind, hl, ← hb]
    cases allOk (xs.map renderStep) with
    | none => simp
    | some blocks =>
      simp only [Option.some_bind, Option.isSome_some, Bool.true_and]
      by_cases he : truthy (propOf t "error") = true
      · simp only [he, if_true, ← errorBlock_isSome he, Bool.not_true, Bool.and_false,
          Bool.false_eq_true, if_false]
        cases errorBlock (propOf t "error") <;> rfl
      · have hf : truthy (propOf t "error") = false := by simpa using he
        simp only [hf, Bool.false_eq_true, if_false, Option.some_bind]
        split <;> rfl

theorem renderTrace_returned (t : JVal) (s : View) :
    (renderTrace t s).returned = traceRenders t := by
  have e : (renderTrace t s).returned = ((statusHtml t).isSome && (traceHtml t).isSome) := by
    simp only [renderTrace]
    cases statusHtml t <;> cases traceHtml t <;> rfl
  rw [e]
  by_cases hn : nullish t = true
  · simp [traceRenders, hn, statusHtml, getProp_of_nullish hn]
  · have hf : nullish t = false := by simpa using hn
    rw [statusHtml_isSome hf, traceHtml_isSome hf]
    simp only [traceRenders, hf, Bool.not_false, Bool.true_and]
    by_cases he : truthy (propOf t "error") = true
    · simp only [he, if_true]
      cases printable (propOf (propOf t "error") "type") <;>
        cases printable (propOf (propOf t "error") "message") <;>
        cases (match iterate (propOf t "steps") with
          | some xs => xs.all stepRenders
          | none => false) <;> rfl
    · simp only [he, Bool.false_eq_true, if_false, Bool.and_true]

theorem printable_of_falsy {v : JVal} (h : truthy v = false) : printable v = true := by
  cases v <;> first | rfl | simp [truthy] at h

theorem explanationStep_isSome (se : JVal) :
    (explanationStep se).isSome = explanationStepRenders se := by
  by_cases hn : nullish se = true
  · simp [explanationStep, explanationStepRenders, getProp_of_nullish hn, hn]
  · have hf : nullish se = false := by simpa using hn
    rw [explanationStepRenders, ← toStr_isSome (propOf se "step"),
      ← toStr_isSome (propOf se "line"), ← escapeHtml_isSome (propOf se "explanation")]
    simp only [explanationStep, getProp_of_not_nullish hf, hf, Option.bind_eq_bind,
      Option.some_bind, Bool.not_false, Bool.true_and]
    cases toStr (propOf se "step") <;> cases toStr (propOf se "line") <;>
      cases escapeHtml (propOf se "explanation") <;> rfl

theorem conceptTag_isSome (c : JVal) : (conceptTag c).isSome = printable c := by
  rw [← escapeHtml_isSome, conceptTag]
  cases escapeHtml c <;> rfl

theorem summaryHtml_isSome {expl : JVal} (ht : truthy expl = true) :
    (summaryHtml expl).isSome = printable (propOf expl "summary") := by
  simp only [summaryHtml, getProp_of_truthy ht, Option.bind_eq_bind, Option.some_bind]
  by_cases hs : truthy (propOf expl "summary") = true
  · rw [← escapeHtml_isSome]
    simp only [hs, if_true]
    cases escapeHtml (propOf expl "summary") <;> rfl
  · have hf : truthy (propOf expl "summary") = false := by simpa using hs
    simp [hf, printable_of_falsy hf]

theorem depthHtml_isSome {expl : JVal} (ht : truthy expl = true) :
    (depthHtml expl).isSome = printable (propOf expl "depth") := by
  simp only [depthHtml, getProp_of_truthy ht, Option.bind_eq_bind, Option.some_bind]
  by_cases hs : truthy (propOf expl "depth") = true
  · rw [← toStr_isSome]
    simp only [hs, if_true]
    cases toStr (propOf expl "depth") <;> rfl
  · have hf : truthy (propOf expl "depth") = false := by simpa using hs
    simp [hf, printable_of_falsy hf, toStr]

theorem stepExplanationsHtml_isSome {expl : JVal} (ht : truthy expl = true) :
    (stepExplanationsHtml expl).isSome
      = stepExplanationsRender (propOf expl "step_explanations") := by
  simp only [stepExplanationsHtml, stepExplanationsRender, getProp_of_truthy ht,
    Option.bind_eq_bind, Option.some_bind]
  by_cases hs : truthy (propOf expl "step_explanations") = true
  · simp only [hs, if_true, Bool.not_true, Bool.false_or]
    cases iterate (propOf expl "step_explanations") with
    | none => rfl
    | some xs =>
      have hb := allOk_isSome_eq xs explanationStep
      simp only [explanationStep_isSome] at hb
      simp only [Option.some_bind, ← hb]
      cases allOk (xs.map explanationStep) <;> rfl
  · have hf : truthy (propOf expl "step_explanations") = false := by simpa using hs
    simp [hf]

theorem allOk_conceptTag_str (cs : List Char) :
    (allOk ((cs.map (fun c => JVal.str c.toString)).map conceptTag)).isSome = true := by
  rw [allOk_isSome_eq]
  simp [conceptTag_isSome, printable]

theorem keyConceptsHtml_isSome {expl : JVal} (ht : truthy expl = true) :
    (keyConceptsHtml expl).isSome = keyConceptsRender (propOf expl "key_concepts") := by
  simp only [keyConceptsHtml, hasKeyConcepts, keyConceptsRender, getProp_of_truthy ht,
    Option.bind_eq_bind, Option.some_bind]
  by_cases hs : truthy (propOf expl "key_concepts") = true
  · simp only [hs, if_true, Bool.not_true, Bool.false_or]
    cases hk : propOf expl "key_concepts" with
    | arr xs =>
      have hl : getProp (.arr xs) "length" = some (.num xs.length) := by simp [getProp]
      have hb := allOk_isSome_eq xs conceptTag
      simp only [conceptTag_isSome] at hb
      simp only [hl, Option.some_bind, gtZero, iterate, ← hb]
      cases xs with
      | nil => rfl
      | cons y ys =>
        have hp : decide ((0 : Int) < ((y :: ys).length : Nat)) = true := by
          simp only [List.length_cons, decide_eq_true_eq]
          omega
        simp only [hp, if_true]
        cases allOk ((y :: ys).map conceptTag) <;> rfl
    | str t =>
      have hl : getProp (.str t) "length" = some (.num (utf16Length t)) := by simp [getProp]
      simp only [hl, Option.some_bind, gtZero, iterate]
      split
      · have := allOk_conceptTag_str t.data
        cases hq : allOk ((t.data.map (fun c => JVal.str c.toString)).map conceptTag) with
        | none => rw [hq] at this; simp at this
        | some tags => rfl
      · rfl
    | obj ps =>
      simp only [getProp_obj, Option.some_bind]
      cases hg : gtZero (lookup ps "length") with
      | none => rfl
      | some b => cases b <;> rfl
    | undefined => rw [hk] at hs; simp [truthy] at hs
    | null => rw [hk] at hs; simp [truthy] at hs
    | bool b => rfl
    | num n => rfl
    | float t => rfl
  · have hf : truthy (propOf expl "key_concepts") = false := by simpa using hs
    simp [hf]

theorem explanationHtml_isSome {expl : JVal} (ht : truthy expl = true) :
    (explanationHtml expl).isSome
      = (printable (propOf expl "summary")
        && stepExplanationsRender (propOf expl "step_explanations")
        && keyConceptsRender (propOf expl "key_concepts")) := by
  rw [← summaryHtml_isSome ht, ← stepExplanationsHtml_isSome ht, ← keyConceptsHtml_isSome ht]
  simp only [explanationHtml, Option.bind_eq_bind]
  cases summaryHtml expl <;> cases stepExplanationsHtml expl <;>
    cases keyConceptsHtml expl <;> rfl

theorem renderExplanation_returned (d : JVal) (s : View) :
    (renderExplanation d s).returned = envelopeRenders d := by
  by_cases hn : nullish d = true
  · simp [renderExplanation, envelopeRenders, getProp_of_nullish hn, hn]
  · have hf : nullish d = false := by simpa using hn
    simp only [renderExplanation, envelopeRenders, getProp_of_not_nullish hf, hf,
      Bool.not_false, Bool.true_and]
    by_cases ha : truthy (propOf d "ai_error") = true
    · rw [← escapeHtml_isSome]
      simp only [ha, if_true]
      cases escapeHtml (propOf d "ai_error") <;> rfl
    · simp only [ha, Bool.false_eq_true, if_false]
      by_cases he : truthy (propOf d "explanation") = true
      · have hr : explanationRenders (propOf d "explanation")
            = ((depthHtml (propOf d "explanation")).isSome
              && (explanationHtml (propOf d "explanation")).isSome) := by
          rw [depthHtml_isSome he, explanationHtml_isSome he, explanationRenders]
          simp only [Bool.and_assoc]
        simp only [he, Bool.not_true, Bool.false_eq_true, if_false, Bool.false_or, hr]
        cases depthHtml (propOf d "explanation") <;>
          cases explanationHtml (propOf d "explanation") <;> rfl
      · have hx : truthy (propOf d "explanation") = false := by simpa using he
        simp [hx]

theorem lookup_of_not_hasKey {ps : Props} {k : String} (h : hasKey ps k = false) :
    lookup ps k = .undefined := by
  by_contra hne
  rw [hasKey_of_lookup hne] at h
  cases h

theorem formats_obj_str {ps : Props} (ht : hasKey ps "type" = true)
    (hv : hasKey ps "value" = true) (h1 : isString (lookup ps "type") "str" = true) :
    (formatValue (.obj ps)).isSome = printable (lookup ps "value") := by
  rw [formatValue_obj_str ht hv h1, ← toStr_isSome]
  cases toStr (lookup ps "value") <;> rfl

theorem formats_obj_arr {ps : Props} (ht : hasKey ps "type" = true)
    (hv : hasKey ps "value" = true) (h1 : isString (lookup ps "type") "str" = false)
    {es : List JVal} (hes : lookup ps "value" = .arr es) :
    (formatValue (.obj ps)).isSome = es.all (fun x => (formatValue x).isSome) := by
  rw [formatValue_obj_arr ht hv h1 hes, ← allOk_isSome_eq]
  cases allOk (es.map formatValue) <;> rfl

theorem formats_obj_props {ps : Props} (ht : hasKey ps "type" = true)
    (hv : hasKey ps "value" = true) (h1 : isString (lookup ps "type") "str" = false)
    {qs : Props} (hqs : lookup ps "value" = .obj qs) :
    (formatValue (.obj ps)).isSome = (ownEntries qs).all (fun p => (formatValue p.2).isSome) := by
  have e := allOk_isSome_eq (ownEntries qs)
    (fun p => (formatValue p.2).map (fun s => p.1 ++ ": " ++ s))
  simp only [Option.isSome_map'] at e
  rw [formatValue_obj_props ht hv h1 hqs, ← e]
  cases allOk ((ownEntries qs).map fun p => (formatValue p.2).map fun s => p.1 ++ ": " ++ s) <;> rfl

theorem updatedLine_bare (name : String) {qs : Props} (hf : hasKey qs "from" = false)
    (ht : hasKey qs "to" = false) :
    updatedLine (name, .obj qs)
      = some (varChange "var-updated" (updatedText name "None" "None")) := by
  have e : formatValue .undefined = some "None" := rfl
  simp only [updatedLine, getProp_obj, lookup_of_not_hasKey hf, lookup_of_not_hasKey ht, e,
    Option.bind_eq_bind, Option.some_bind, varChange, updatedText, String.append_assoc]
  rfl

set_option exponentiation.threshold 2000 in
/-- C10 as stated fails: renderTrace throws on a trace without `steps`, on a step whose
`updated` entry is null and on an absent trace; renderExplanation throws on an absent
envelope, on a `step_explanations` that is a number, on a null item of
`step_explanations` and on a `key_concepts` that is an object with a `length` above zero,
be it the number 2 or the string "1.5"; formatValue throws on an object that has an own
`toString` property, bare or as an element of a list. -/
theorem render_throws_on_partial_payload :
    (renderTrace noStepsFieldTrace blankView).returned = false ∧
    (renderTrace nullUpdateTrace blankView).returned = false ∧
    (renderTrace .undefined blankView).returned = false ∧
    (renderExplanation .undefined blankView).returned = false ∧
    (renderExplanation numberStepsEnvelope blankView).returned = false ∧
    (renderExplanation nullItemEnvelope blankView).returned = false ∧
    (renderExplanation objectConceptsEnvelope blankView).returned = false ∧
    (renderExplanation fractionalLengthEnvelope blankView).returned = false ∧
    formatValue (.obj [("toString", .num 1)]) = none ∧
    formatValue (tagged "list" (.arr [.obj [("toString", .num 1)]])) = none := by
  refine ⟨by decide, by decide, by decide, by decide, by decide, by decide, by decide,
    by decide, by decide, by decide⟩

set_option maxRecDepth 100000 in
/-- C10 (amended): the string conversion of a value returns exactly when the value is
`printable`; formatValue returns on every value that is neither an array nor an object,
on a bare array exactly when the array is printable, on an untagged object exactly when
it has no own `toString` property, on a value tagged `str` exactly when its payload is
printable, on another tagged value with an array payload exactly when it returns on every
element, with an object payload exactly when it returns on the value of every entry, and
with any other payload always; renderTrace returns exactly on the traces described by
`traceRenders` and renderExplanation exactly on the envelopes described by
`envelopeRenders`, whatever the view; an `updated` entry that is an object without `from`
and `to` is rendered `~ name: None → None`; a trace whose only step has no field at all,
a trace that creates a variable named `toString` and an envelope whose explanation has no
field are rendered. -/
theorem render_returns_exactly :
    (∀ v, (toStr v).isSome = printable v) ∧
    (∀ v, isContainer v = false → ∃ text, formatValue v = some text) ∧
    (∀ xs, (formatValue (.arr xs)).isSome = printable (.arr xs)) ∧
    (∀ ps, (hasKey ps "type" && hasKey ps "value") = false →
      (formatValue (.obj ps)).isSome = !hasKey ps "toString") ∧
    (∀ ps, (hasKey ps "type" && hasKey ps "value") = true →
      (isString (lookup ps "type") "str" = true →
        (formatValue (.obj ps)).isSome = printable (lookup ps "value")) ∧
      (isString (lookup ps "type") "str" = false → ∀ es, lookup ps "value" = .arr es →
        (formatValue (.obj ps)).isSome = es.all (fun x => (formatValue x).isSome)) ∧
      (isString (lookup ps "type") "str" = false → ∀ qs, lookup ps "value" = .obj qs →
        (formatValue (.obj ps)).isSome
          = (ownEntries qs).all (fun p => (formatValue p.2).isSome)) ∧
      (isString (lookup ps "type") "str" = false → isContainer (lookup ps "value") = false →
        ∃ text, formatValue (.obj ps) = some text)) ∧
    (∀ t s, (renderTrace t s).returned = traceRenders t) ∧
    (∀ d s, (renderExplanation d s).returned = envelopeRenders d) ∧
    (∀ (name : String) (qs : Props), hasKey qs "from" = false → hasKey qs "to" = false →
      updatedLine (name, .obj qs)
        = some (varChange "var-updated" (updatedText name "None" "None"))) ∧
    diffLines bareUpdateStep
      = some [varChange "var-updated" (updatedText "x" "None" "None")] ∧
    renderTrace bareStepTrace blankView
      = ⟨⟨statusBadge "success" "undefined steps",
          "<div class=\"trace-step\"><div class=\"step-header\">"
            ++ "<span class=\"step-number\">Step undefined</span>"
            ++ "<span class=\"step-event\">undefined</span></div>"
            ++ "<div class=\"step-source\"><span class=\"line-num\">undefined</span></div>"
            ++ "</div>", "", ""⟩, true⟩ ∧
    (renderTrace toStringNameTrace blankView).returned = true ∧
    diffLines toStringNameStep
      = some [varChange "var-created" (createdText "toString" "1")] ∧
    renderExplanation bareExplanationEnvelope blankView
      = ⟨⟨"", "", "", statusBadge "success" "intermediate"⟩, true⟩ := by
  refine ⟨toStr_isSome, ?_, formats_arr, fun ps h => formats_obj_untagged h, ?_,
    renderTrace_returned, renderExplanation_returned,
    fun name qs hf ht => updatedLine_bare name hf ht,
    by decide, by decide, by decide, by decide, by decide⟩
  · intro v h
    have := formats_of_not_container h
    exact Option.isSome_iff_exists.mp this
  · intro ps h
    simp only [Bool.and_eq_true] at h
    refine ⟨fun h1 => formats_obj_str h.1 h.2 h1, fun h1 _ hes => formats_obj_arr h.1 h.2 h1 hes,
      fun h1 _ hqs => formats_obj_props h.1 h.2 h1 hqs, fun h1 h2 => ?_⟩
    rw [formatValue_obj_scalar h.1 h.2 h1 h2]
    have := toStr_isSome (lookup ps "value")
    cases hval : lookup ps "value" <;> simp_all [isContainer, toStr]

end App
